import Mathlib

/-!
# elastic-journald: the journal-to-Elasticsearch shipper

A shallow embedding of `service.go`: the record normaliser
(`ProcessEntryFields`, `ProcessEntry`), the bulk `Sender` closure built by
`NewService`, and the journal positioning done by `InitJournal` and
`ProcessStream`.

Go strings are Lean strings.  Calls that end the process (`log.Fatalf`, a
run-time panic) are results of type `Crash`.
-/

namespace ElasticJournald

/-! ## Process-ending results -/

/-- How the process can end abnormally: `log.Fatalf`/`log.Fatalln` (exit status 1 after
logging) or a Go run-time panic. -/
inductive Crash where
  | fatal (msg : String)
  | panic (msg : String)
  deriving DecidableEq, Repr

deriving instance DecidableEq for Except

/-! ## The Go `strings` functions used by the service -/

/-- Go `strings.ToLower`: every rune is mapped through the Unicode lower-case table,
which is the parameter `lowerRune`. -/
def ToLower (lowerRune : Char → Char) (s : String) : String :=
  ⟨s.data.map lowerRune⟩

/-- Go `strings.HasPrefix`. -/
def HasPrefix (s p : String) : Bool :=
  p.data.isPrefixOf s.data

/-- Go `strings.TrimPrefix`: `s` without the leading `p` when `s` starts with `p`,
otherwise `s` itself. -/
def TrimPrefix (s p : String) : String :=
  if HasPrefix s p then ⟨s.data.drop p.data.length⟩ else s

/-- Cut a character list at the first occurrence of `sep`: the part before it and the
part after it, or `none` when `sep` does not occur. -/
def cutAt (sep : Char) : List Char → Option (List Char × List Char)
  | [] => none
  | c :: cs =>
    if c = sep then some ([], cs)
    else match cutAt sep cs with
      | none => none
      | some (a, b) => some (c :: a, b)

/-- Go `strings.SplitN(s, sep, n)` for a one-character separator and `n ≥ 0`: at most
`n` pieces, the last one holding the unsplit remainder. -/
def SplitN (s : String) (sep : Char) : Nat → List String
  | 0 => []
  | 1 => [s]
  | n + 2 =>
    match cutAt sep s.data with
    | none => [s]
    | some (a, b) => ⟨a⟩ :: SplitN ⟨b⟩ sep (n + 1)

/-! ## The row: a Go `map[string]interface{}` holding strings -/

/-- The entries of the Go map `row`; every key occurs at most once. -/
abbrev Row := List (String × String)

/-- Go map assignment `row[k] = v`: a binding of `k` that is already there is replaced. -/
def Row.assign (row : Row) (k v : String) : Row :=
  row.filter (fun p => decide (p.1 ≠ k)) ++ [(k, v)]

/-- Go map read `row[k]`. -/
def Row.get (row : Row) (k : String) : Option String :=
  (row.find? (fun p => decide (p.1 = k))).map Prod.snd

/-- Number of bindings of the key `k` in the row. -/
def Row.occurrences (row : Row) (k : String) : Nat :=
  row.countP (fun p => decide (p.1 = k))

/-! ## Record normalisation -/

/-- Go `C.GoString`: the bytes of a C string up to, and without, its first NUL byte. -/
def GoString (cData : String) : String :=
  ⟨cData.data.takeWhile (fun c => decide (c ≠ Char.ofNat 0))⟩

/-- One iteration of the loop of `ProcessEntryFields` on the bytes `cData` of one
enumerated field, whose `length` the loop does not use:
`data := C.GoString(cData)`, `parts := SplitN(data, "=", 2)`,
`key := ToLower(parts[0])`, `value := parts[1]`, `row[TrimPrefix(key, "_")] = value`.
Indexing `parts[1]` of a one-element slice is a run-time panic. -/
def processDatum (lowerRune : Char → Char) (row : Row) (cData : String) :
    Except Crash Row :=
  let data := GoString cData
  let parts := SplitN data '=' 2
  match parts.get? 0, parts.get? 1 with
  | some p0, some p1 =>
    let key := ToLower lowerRune p0
    let value := p1
    .ok (row.assign (TrimPrefix key "_") value)
  | _, _ => .error (.panic "index out of range")

/-- The method `ProcessEntryFields`: the data of the current entry, in the order
`sd_journal_enumerate_data` yields them, are folded into `row`. -/
def ProcessEntryFields (lowerRune : Char → Char) :
    Row → List String → Except Crash Row
  | row, [] => .ok row
  | row, data :: rest =>
    match processDatum lowerRune row data with
    | .ok row' => ProcessEntryFields lowerRune row' rest
    | .error c => .error c

/-! ## The Go `time` functions used by the service

`time.Unix`, `Time.UTC` and `Time.Format` as the standard library computes them: a
`Time` holds the seconds since 1 January of year 1 and the nanoseconds within the
second; a formatted date is computed from the unsigned count of seconds since 1 January
of the year `absoluteZeroYear`. -/

def secondsPerDay : Nat := 86400
def daysPer400Years : Nat := 365 * 400 + 97
def daysPer100Years : Nat := 365 * 100 + 24
def daysPer4Years : Nat := 365 * 4 + 1

/-- Seconds from 1 January of year 1 to the Unix epoch. -/
def unixToInternal : Int := (1969 * 365 + 1969 / 4 - 1969 / 100 + 1969 / 400) * 86400

/-- The year the absolute count of seconds starts at; it is 1 modulo 400. -/
def absoluteZeroYear : Int := -292277022399

/-- Seconds from 1 January of `absoluteZeroYear` to 1 January of year 1. -/
def internalToAbsolute : Int := 292277022400 * 31556952

/-- A Go `time.Time` in UTC: `sec` seconds since 1 January of year 1, and `nsec`
nanoseconds. -/
structure Time where
  sec : Int
  nsec : Int
  deriving DecidableEq, Repr

/-- Go `time.Unix(sec, nsec)`: a nanosecond count outside `[0, 1e9)` is carried into
the seconds. -/
def Unix (sec nsec : Int) : Time :=
  if nsec < 0 ∨ nsec ≥ 1000000000 then
    let n := Int.tdiv nsec 1000000000
    let sec1 := sec + n
    let nsec1 := nsec - n * 1000000000
    if nsec1 < 0 then ⟨sec1 - 1 + unixToInternal, nsec1 + 1000000000⟩
    else ⟨sec1 + unixToInternal, nsec1⟩
  else ⟨sec + unixToInternal, nsec⟩

/-- Go `Time.abs` of a UTC time: the seconds since the absolute zero, as a `uint64`. -/
def Time.abs (t : Time) : Nat :=
  ((t.sec + internalToAbsolute) % 2 ^ 64).toNat

/-- Go `isLeap`. -/
def isLeap (year : Int) : Bool :=
  year % 4 = 0 ∧ (year % 100 ≠ 0 ∨ year % 400 = 0)

/-- Go `daysBefore`: `daysBefore[m]` is the number of days of a non-leap year before
month `m + 1`. -/
def daysBefore : List Nat :=
  [0, 31, 59, 90, 120, 151, 181, 212, 243, 273, 304, 334, 365]

/-- The first half of Go `absDate`: the number of whole years since the absolute zero
year and the day within the year (from 0), by cutting off 400-, 100-, 4- and 1-year
cycles. -/
def absYearDay (abs : Nat) : Nat × Nat :=
  let d := abs / secondsPerDay
  let n := d / daysPer400Years
  let y := 400 * n
  let d := d - daysPer400Years * n
  let n := d / daysPer100Years
  let n := n - n / 4
  let y := y + 100 * n
  let d := d - daysPer100Years * n
  let n := d / daysPer4Years
  let y := y + 4 * n
  let d := d - daysPer4Years * n
  let n := d / 365
  let n := n - n / 4
  let y := y + n
  let d := d - 365 * n
  (y, d)

/-- The second half of Go `absDate`: month (1 to 12) and day of the month (from 1) of
the day `yday` (from 0) of a year that is a leap year or not. -/
def monthDay (leap : Bool) (yday : Nat) : Nat × Nat :=
  if leap ∧ yday = 31 + 29 - 1 then (2, 29)
  else
    let day := if leap ∧ yday > 31 + 29 - 1 then yday - 1 else yday
    let month := day / 31
    let endDay := daysBefore.getD (month + 1) 0
    if day ≥ endDay then (month + 1 + 1, day - endDay + 1)
    else (month + 1, day - daysBefore.getD month 0 + 1)

/-- Go `absDate(abs, true)`: year, month and day of the month. -/
def absDate (abs : Nat) : Int × Nat × Nat :=
  let yd := absYearDay abs
  let year : Int := (yd.1 : Int) + absoluteZeroYear
  let md := monthDay (isLeap year) yd.2
  (year, md.1, md.2)

/-- Go `absClock`: hour, minute and second within the day. -/
def absClock (abs : Nat) : Nat × Nat × Nat :=
  let sec := abs % secondsPerDay
  let hour := sec / 3600
  let sec := sec - hour * 3600
  let min := sec / 60
  let sec := sec - min * 60
  (hour, min, sec)

/-- Decimal digits of `n`, at least `width` of them (zero padded on the left). -/
def zeroPad (width n : Nat) : String :=
  let ds := Nat.toDigits 10 n
  ⟨List.replicate (width - ds.length) '0' ++ ds⟩

/-- Go `appendInt(b, x, width)`: a sign for a negative number, then the zero-padded
decimal digits. -/
def appendInt (x : Int) (width : Nat) : String :=
  if x < 0 then "-" ++ zeroPad width x.natAbs else zeroPad width x.natAbs

/-- The pieces a Go layout string is cut into by `nextStdChunk`. -/
inductive Chunk where
  | stdLongYear
  | stdZeroMonth
  | stdZeroDay
  | stdHour
  | stdZeroMinute
  | stdZeroSecond
  | literal (s : String)
  deriving DecidableEq, Repr

/-- The layout `"2006-01-02"`. -/
def layoutDate : List Chunk :=
  [.stdLongYear, .literal "-", .stdZeroMonth, .literal "-", .stdZeroDay]

/-- The layout `"2006-01-02T15:04:05Z"`; a `Z` that no zone offset follows is text. -/
def layoutStamp : List Chunk :=
  [.stdLongYear, .literal "-", .stdZeroMonth, .literal "-", .stdZeroDay, .literal "T",
   .stdHour, .literal ":", .stdZeroMinute, .literal ":", .stdZeroSecond, .literal "Z"]

/-- What one chunk of a layout appends for the time `t`. -/
def formatChunk (t : Time) : Chunk → String
  | .stdLongYear => appendInt (absDate t.abs).1 4
  | .stdZeroMonth => zeroPad 2 (absDate t.abs).2.1
  | .stdZeroDay => zeroPad 2 (absDate t.abs).2.2
  | .stdHour => zeroPad 2 (absClock t.abs).1
  | .stdZeroMinute => zeroPad 2 (absClock t.abs).2.1
  | .stdZeroSecond => zeroPad 2 (absClock t.abs).2.2
  | .literal s => s

/-- Go `Time.Format` of a UTC time for a layout given by its chunks. -/
def Time.Format (t : Time) (layout : List Chunk) : String :=
  layout.foldl (fun b c => b ++ formatChunk t c) ""

/-! ## The service -/

/-- The `Config` struct. -/
structure Config where
  Host : String
  Prefix : String
  State : String
  deriving DecidableEq, Repr

/-- One journal entry as the service reads it: `sd_journal_get_realtime_usec`
(a `uint64`), the C string of `sd_journal_get_cursor`, and the data that
`sd_journal_enumerate_data` yields, in its order, each with all its bytes (a value may
be binary and hold NUL bytes). -/
structure Entry where
  realtime : Nat
  cursor : String
  data : List String
  deriving DecidableEq, Repr

/-- The arguments of one `Indexer.Index` call; `doc` is the row that `json.Marshal`
turns into the content argument. -/
structure IndexCall where
  index : String
  type : String
  id : String
  doc : Row
  deriving DecidableEq, Repr

/-- The expression `time.Unix(int64(realtime/1000000), int64(realtime%1000000)).UTC()`
of `ProcessEntry`: the whole seconds, and the microsecond remainder in the place of the
nanoseconds.  Both quotient and remainder of a `uint64` fit an `int64`. -/
def entryTime (realtime : Nat) : Time :=
  Unix ((realtime / 1000000 : Nat) : Int) ((realtime % 1000000 : Nat) : Int)

/-- The index name `fmt.Sprintf("%v-%v", s.Config.Prefix, timestamp.Format("2006-01-02"))`. -/
def indexName (cfg : Config) (realtime : Nat) : String :=
  cfg.Prefix ++ "-" ++ (entryTime realtime).Format layoutDate

/-- The method `ProcessEntry` on the current entry `e`: the row starts with the
`timestamp` field, `ProcessEntryFields` adds the entry's fields, and the document is
handed to the indexer under the entry's cursor as its id. -/
def ProcessEntry (lowerRune : Char → Char) (cfg : Config) (e : Entry) :
    Except Crash IndexCall :=
  let timestamp := entryTime e.realtime
  let row : Row := Row.assign [] "timestamp" (timestamp.Format layoutStamp)
  match ProcessEntryFields lowerRune row e.data with
  | .error c => .error c
  | .ok row' =>
    .ok { index := indexName cfg e.realtime, type := "journal", id := e.cursor, doc := row' }

/-! ## The state file and the bulk `Sender` -/

/-- What goes wrong when a file is written: nothing, the open fails, or the write
fails after `written` bytes. -/
inductive WriteFault where
  | noFault
  | openFails
  | writeFails (written : Nat)
  deriving DecidableEq, Repr

/-- One file: its content when it exists and can be read, and what goes wrong when it
is written. -/
structure File where
  content : Option String
  fault : WriteFault
  deriving DecidableEq, Repr

/-- The files by path. -/
abbrev FileSys := String → File

/-- Go `ioutil.ReadFile`: the content, or an error. -/
def ReadFile (fs : FileSys) (name : String) : Except String String :=
  match (fs name).content with
  | some data => .ok data
  | none => .error "open: no such file or directory"

/-- Go `ioutil.WriteFile(name, data, 0644)`: the file is opened, which truncates it,
and `data` is written.  When the open fails nothing changes; when the write fails the
file is left with the bytes written so far; both return an error. -/
def WriteFile (fs : FileSys) (name data : String) : FileSys × Option String :=
  match (fs name).fault with
  | .noFault =>
    (Function.update fs name { content := some data, fault := .noFault }, none)
  | .openFails => (fs, some "open: permission denied")
  | .writeFails written =>
    (Function.update fs name
      { content := some ⟨data.data.take written⟩, fault := .writeFails written },
      some "write: no space left on device")

/-- One element of `items` in the body of a bulk response: the `_id` under `index`,
which the service decodes, and the per-item `error`, which its struct has no field
for. -/
structure BulkItem where
  id : String
  error : Option String
  deriving DecidableEq, Repr

/-- The body of a bulk response. -/
structure BulkResponse where
  took : Int
  errors : Bool
  items : List BulkItem
  deriving DecidableEq, Repr

/-- What `elastic.DoCommand("POST", "/_bulk", nil, buf)` and `json.Unmarshal` give the
Sender: a transport error, a body that is not the expected JSON, or a decoded body. -/
inductive BulkReply where
  | transportError (err : String)
  | malformed (jsonErr : String)
  | body (response : BulkResponse)
  deriving DecidableEq, Repr

/-- How a call of the Sender ends: the process is gone, or the call returns `err`. -/
inductive SenderResult where
  | crashed (c : Crash)
  | returned (err : Option String)
  deriving DecidableEq, Repr

/-- A run of the Sender: the files afterwards, the `WriteFile` calls it made (path and
data), and how it ended. -/
structure SenderRun where
  fs : FileSys
  writes : List (String × String)
  result : SenderResult

/-- The closure `indexer.Sender` built by `NewService`, run on the reply of the bulk
request.  `log.Fatalf` ends the process on a transport error, on a body that does not
parse and on a set `errors` flag; otherwise `response.Items[messagesStored-1]` is read
(a run-time panic when the index is out of range), its `_id` is written to
`config.State` with the result of `WriteFile` dropped, and `err`, which is nil here, is
returned. -/
def Sender (config : Config) (fs : FileSys) : BulkReply → SenderRun
  | .transportError err => ⟨fs, [], .crashed (.fatal ("Bulk error: " ++ err))⟩
  | .malformed jsonErr => ⟨fs, [], .crashed (.fatal jsonErr)⟩
  | .body response =>
    if response.errors then
      ⟨fs, [], .crashed (.fatal "elasticsearch reported errors on intake")⟩
    else
      let messagesStored : Int := response.items.length
      let i : Int := messagesStored - 1
      if 0 ≤ i ∧ i < response.items.length then
        match response.items.get? i.toNat with
        | some item =>
          let lastStoredCursor := item.id
          let w := WriteFile fs config.State lastStoredCursor
          ⟨w.1, [(config.State, lastStoredCursor)], .returned none⟩
        | none => ⟨fs, [], .crashed (.panic "index out of range")⟩
      else ⟨fs, [], .crashed (.panic "index out of range")⟩

/-! ## Flushes in flight

`NewBulkIndexerErrors(2, 30)` lets two bulk requests be in flight; each is answered
on its own and its answer is handled by the Sender alone. -/

/-- A flush in flight: the documents submitted, in order, and the reply its request
will get. -/
structure Flight where
  batch : List IndexCall
  reply : BulkReply
  deriving DecidableEq, Repr

/-- The flushes in flight in submission order, the files, the `WriteFile` calls made so
far, and the crash that ended the process, if any. -/
structure Pipeline where
  pending : List Flight
  fs : FileSys
  writes : List (String × String)
  crashed : Option Crash

/-- The bound on flushes in flight, the first argument of `NewBulkIndexerErrors`. -/
def maxConns : Nat := 2

/-- A flush is submitted when fewer than `maxConns` are in flight; otherwise the caller
waits and nothing changes. -/
def submitFlush (p : Pipeline) (f : Flight) : Pipeline :=
  if p.pending.length < maxConns then { p with pending := p.pending ++ [f] } else p

/-- The flush at position `i` of the pending ones completes: its reply is handled by
the Sender.  Nothing happens once the process is gone. -/
def completeFlush (config : Config) (p : Pipeline) (i : Nat) : Pipeline :=
  match p.crashed, p.pending.get? i with
  | none, some f =>
    let run := Sender config p.fs f.reply
    { pending := p.pending.eraseIdx i
      fs := run.fs
      writes := p.writes ++ run.writes
      crashed := match run.result with
        | .crashed c => some c
        | .returned _ => none }
  | _, _ => p

/-! ## The journal

The journal of `sd-journal.h` as a sequence of entries with a read position: opening
positions before the first entry, seeking to a cursor positions just before the entry
with that cursor (before the closest entry when no entry has it), and
`next`/`next_skip(n)` advance by one/`n` entries and make the entry reached the current
one. -/

/-- The calls made on a journal handle. -/
inductive JournalCall where
  | open
  | seekCursor (cursor : String)
  | nextSkip (n : Nat)
  | next
  | wait
  deriving DecidableEq, Repr

/-- A journal handle: the entries, the number `pos` of entries the read position has
passed (the current entry, if any, is entry number `pos`, counted from 1), what each
coming `sd_journal_wait` will find appended, the calls made so far, and, for the
well-formed cursors that no entry has, the position of the closest entry, which is
where a seek to such a cursor goes. -/
structure Journal where
  records : List Entry
  pos : Nat
  arrivals : List (List Entry)
  calls : List JournalCall
  closest : List (String × Nat)
  deriving DecidableEq, Repr

/-- The current entry of the handle. -/
def Journal.current (j : Journal) : Option Entry :=
  if j.pos = 0 then none else j.records.get? (j.pos - 1)

/-- The function `sd_journal_open`: a handle positioned before the first entry, or a
negative errno when there is no journal to open. -/
def sd_journal_open
    (source : Option (List Entry × List (List Entry) × List (String × Nat))) :
    Int × Journal :=
  match source with
  | some (records, arrivals, closest) => (0, ⟨records, 0, arrivals, [.open], closest⟩)
  | none => (-2, ⟨[], 0, [], [.open], []⟩)

/-- The function `sd_journal_seek_cursor`: the position just before the first entry
with this cursor; when no entry has it, the position just before the closest entry for
a well-formed cursor, and a negative errno for any other. -/
def sd_journal_seek_cursor (j : Journal) (cursor : String) : Int × Journal :=
  let i := j.records.findIdx (fun e => decide (e.cursor = cursor))
  if i < j.records.length then
    (0, { j with pos := i, calls := j.calls ++ [.seekCursor cursor] })
  else
    match j.closest.lookup cursor with
    | some p =>
      (0, { j with pos := min p j.records.length, calls := j.calls ++ [.seekCursor cursor] })
    | none => (-22, { j with calls := j.calls ++ [.seekCursor cursor] })

/-- The function `sd_journal_next_skip`: advance by `n` entries, or to the end when
fewer are left; the result is the number of entries advanced. -/
def sd_journal_next_skip (j : Journal) (n : Nat) : Int × Journal :=
  let k := min n (j.records.length - j.pos)
  ((k : Int), { j with pos := j.pos + k, calls := j.calls ++ [.nextSkip n] })

/-- The function `sd_journal_next`: advance by one entry; 1 when there was one, 0 at
the end. -/
def sd_journal_next (j : Journal) : Int × Journal :=
  let k := min 1 (j.records.length - j.pos)
  ((k : Int), { j with pos := j.pos + k, calls := j.calls ++ [.next] })

/-- The function `sd_journal_wait`: what arrives during the wait is appended; 1 when
something was appended and 0 when not. -/
def sd_journal_wait (j : Journal) : Int × Journal :=
  match j.arrivals with
  | [] => (0, { j with calls := j.calls ++ [.wait] })
  | new :: later =>
    ((if new = [] then 0 else 1),
      { j with records := j.records ++ new, arrivals := later, calls := j.calls ++ [.wait] })

/-- The `Service` struct; `Indexer` holds the `Index` calls made so far, in order. -/
structure Service where
  Config : Config
  Journal : Journal
  Cursor : String
  Indexer : List IndexCall
  deriving DecidableEq, Repr

/-- The function `NewService`: no journal handle yet and an empty `Cursor`. -/
def NewService (host pfx state : String) : Service :=
  { Config := { Host := host, Prefix := pfx, State := state }
    Journal := ⟨[], 0, [], [], []⟩
    Cursor := ""
    Indexer := [] }

/-- The method `InitJournal`: open the journal, read the state file into `s.Cursor`
when that succeeds, and for a non-empty cursor seek to it and skip one entry. -/
def InitJournal (s : Service) (fs : FileSys)
    (source : Option (List Entry × List (List Entry) × List (String × Nat))) :
    Except Crash Service :=
  let o := sd_journal_open source
  if o.1 < 0 then .error (.fatal "failed to open journal")
  else
    let s := { s with Journal := o.2 }
    let s := match ReadFile fs s.Config.State with
      | .ok bytes => { s with Cursor := bytes }
      | .error _ => s
    if s.Cursor ≠ "" then
      let r := sd_journal_seek_cursor s.Journal s.Cursor
      if r.1 < 0 then .error (.fatal "failed to seek journal")
      else
        let r := sd_journal_next_skip r.2 1
        if r.1 < 0 then .error (.fatal "failed to skip current journal entry")
        else .ok { s with Journal := r.2 }
    else .ok s

/-- The method `ProcessEntry` on the service: the current entry of the journal is
normalised and handed to the indexer. -/
def Service.ProcessEntry (lowerRune : Char → Char) (s : Service) : Except Crash Service :=
  match s.Journal.current with
  | none => .error (.fatal "failed to get realtime timestamp")
  | some e =>
    match ElasticJournald.ProcessEntry lowerRune s.Config e with
    | .error c => .error c
    | .ok call => .ok { s with Indexer := s.Indexer ++ [call] }

/-- The loop of the method `ProcessStream`, run for `fuel` iterations: advance to the
next entry and process it, or wait when there is none. -/
def ProcessStream (lowerRune : Char → Char) : Nat → Service → Except Crash Service
  | 0, s => .ok s
  | fuel + 1, s =>
    let r := sd_journal_next s.Journal
    if r.1 < 0 then .error (.fatal "failed to iterate to next entry")
    else if r.1 = 0 then
      let w := sd_journal_wait r.2
      if w.1 < 0 then .error (.fatal "failed to wait for changes")
      else ProcessStream lowerRune fuel { s with Journal := w.2 }
    else
      match Service.ProcessEntry lowerRune { s with Journal := r.2 } with
      | .error c => .error c
      | .ok s' => ProcessStream lowerRune fuel s'

/-! ## The Gregorian calendar, counted from the Unix epoch

The calendar the specification speaks of, defined by counting days year by year and
month by month from 1 January 1970; nothing here is taken from the way Go computes a
date. -/

/-- The Gregorian leap-year rule. -/
def leapYear (y : Nat) : Bool :=
  y % 4 = 0 ∧ (y % 100 ≠ 0 ∨ y % 400 = 0)

/-- Number of days of the year `y`. -/
def daysInYear (y : Nat) : Nat :=
  if leapYear y then 366 else 365

/-- Number of days of month `m` (1 to 12) in a leap or a common year. -/
def monthLength (leap : Bool) : Nat → Nat
  | 1 => 31
  | 2 => if leap then 29 else 28
  | 3 => 31
  | 4 => 30
  | 5 => 31
  | 6 => 30
  | 7 => 31
  | 8 => 31
  | 9 => 30
  | 10 => 31
  | 11 => 30
  | 12 => 31
  | _ => 0

/-- Days from 1 January 1970 to 1 January of the year `1970 + n`. -/
def daysBeforeYear : Nat → Nat
  | 0 => 0
  | n + 1 => daysBeforeYear n + daysInYear (1970 + n)

/-- Days from 1 January to the first day of month `k + 1`. -/
def daysBeforeMonth (leap : Bool) : Nat → Nat
  | 0 => 0
  | k + 1 => daysBeforeMonth leap k + monthLength leap (k + 1)

/-- The calendar date `y`-`m`-`d` is day number `D` after 1 January 1970 (which is
day 0). -/
def IsCivilDate (D y m d : Nat) : Prop :=
  1970 ≤ y ∧ 1 ≤ m ∧ m ≤ 12 ∧ 1 ≤ d ∧ d ≤ monthLength (leapYear y) m ∧
  daysBeforeYear (y - 1970) + daysBeforeMonth (leapYear y) (m - 1) + (d - 1) = D

/-! ## Field names as the specification describes them -/

/-- The string without its first character when that is an underscore; any further
underscore stays. -/
def dropOneUnderscore (s : String) : String :=
  match s.data with
  | [] => s
  | c :: rest => if c = '_' then ⟨rest⟩ else s

/-- The datum `K=V` of the raw field with name `K` and value `V`. -/
def datum (f : String × String) : String :=
  f.1 ++ "=" ++ f.2

/-- The key a raw field name is stored under: every character lower-cased, then
without one leading underscore. -/
def normalKey (lowerRune : Char → Char) (K : String) : String :=
  dropOneUnderscore ⟨K.data.map lowerRune⟩

/-- The characters before the first NUL. -/
def beforeNul : List Char → List Char
  | [] => []
  | c :: cs => if c = Char.ofNat 0 then [] else c :: beforeNul cs

/-- A value cut at its first NUL byte; the whole value when it holds none. -/
def upToNul (V : String) : String :=
  ⟨beforeNul V.data⟩

/-- The entries of a journal handle, those present and those still to arrive. -/
def Journal.allRecords (j : Journal) : List Entry :=
  j.records ++ j.arrivals.flatten

/-! ## Concrete inputs used by the closed statements -/

/-- ASCII lower-casing, which is what the Unicode table does on journal field names. -/
def asciiLower : Char → Char := Char.toLower

/-- A configuration with the default index prefix and state file. -/
def demoConfig : Config :=
  { Host := "http://localhost:9200", Prefix := "journald", State := ".elastic_journal_cursor" }

/-- Files where the state file holds the checkpoint `c0` and can be written. -/
def demoFiles : FileSys := fun _ => { content := some "c0", fault := .noFault }

/-- Files where the state file holds the checkpoint `c0` and cannot be opened for
writing. -/
def readOnlyFiles : FileSys := fun _ => { content := some "c0", fault := .openFails }

/-- Files where the state file holds the checkpoint `c0` and every write fails before
the first byte, after the open has truncated the file. -/
def fullDiskFiles : FileSys := fun _ => { content := some "c0", fault := .writeFails 0 }

/-- Two journal entries with the cursors `c1` and `c2`. -/
def demoEntries : List Entry :=
  [ { realtime := 1709632800000000, cursor := "c1", data := ["_HOST=a", "host=b"] },
    { realtime := 1709632801500000, cursor := "c2", data := ["MESSAGE=x=y"] } ]

/-- The `Index` calls `ProcessEntry` makes for `demoEntries`. -/
def demoCalls : List IndexCall :=
  [ { index := "journald-2024-03-05", type := "journal", id := "c1",
      doc := [("timestamp", "2024-03-05T10:00:00Z"), ("host", "b")] },
    { index := "journald-2024-03-05", type := "journal", id := "c2",
      doc := [("timestamp", "2024-03-05T10:00:01Z"), ("message", "x=y")] } ]

/-- The bulk response that acknowledges both documents of `demoCalls`. -/
def ackBoth : BulkResponse :=
  { took := 3, errors := false, items := [⟨"c1", none⟩, ⟨"c2", none⟩] }

/-- A bulk response to a batch of two with a single item and the errors flag false. -/
def ackShort : BulkResponse :=
  { took := 3, errors := false, items := [⟨"c1", none⟩] }

/-- A bulk response to a batch of two whose second item carries an error while the
errors flag is false. -/
def ackItemError : BulkResponse :=
  { took := 3, errors := false,
    items := [⟨"c1", none⟩, ⟨"c2", some "mapper_parsing_exception"⟩] }

/-- A bulk response with the errors flag set. -/
def ackErrors : BulkResponse :=
  { took := 3, errors := true, items := [⟨"c1", none⟩, ⟨"c2", some "rejected"⟩] }

/-- A flush of the first entry whose bulk request fails in transport. -/
def flightFails : Flight :=
  { batch := demoCalls.take 1, reply := .transportError "connection reset" }

/-- A flush of the second entry that is fully acknowledged. -/
def flightAcked : Flight :=
  { batch := demoCalls.drop 1,
    reply := .body { took := 3, errors := false, items := [⟨"c2", none⟩] } }

/-- Two flushes in flight: `flightFails` submitted first, `flightAcked` second. -/
def twoInFlight : Pipeline :=
  submitFlush (submitFlush ⟨[], demoFiles, [], none⟩ flightFails) flightAcked

/-- An entry with a raw field named `TIMESTAMP`. -/
def stampedEntry : Entry :=
  { realtime := 1709632800000000, cursor := "c3",
    data := ["MESSAGE=started", "TIMESTAMP=yesterday"] }

/-- Files where the state file holds the checkpoint `c1`. -/
def resumeFiles : FileSys := fun _ => { content := some "c1", fault := .noFault }

/-- Files without a state file. -/
def noStateFiles : FileSys := fun _ => { content := none, fault := .noFault }

/-! ## Lemmas on the Sender -/

theorem Sender_body_last (config : Config) (fs : FileSys) (r : BulkResponse)
    (item : BulkItem) (he : r.errors = false) (hl : r.items.getLast? = some item) :
    Sender config fs (.body r)
      = ⟨(WriteFile fs config.State item.id).1, [(config.State, item.id)], .returned none⟩ := by
  have hne : r.items ≠ [] := by
    intro h
    rw [h] at hl
    simp at hl
  have hpos : 0 < r.items.length := List.length_pos.mpr hne
  have hidx : r.items.get? ((r.items.length : Int) - 1).toNat = some item := by
    have : ((r.items.length : Int) - 1).toNat = r.items.length - 1 := by omega
    rw [this, List.get?_eq_getElem?, ← List.getLast?_eq_getElem?]
    exact hl
  have hin : (0 : Int) ≤ (r.items.length : Int) - 1 ∧
      (r.items.length : Int) - 1 < (r.items.length : Int) := by omega
  simp only [Sender, he, hidx, hin]
  simp

theorem Sender_body_empty (config : Config) (fs : FileSys) (r : BulkResponse)
    (he : r.errors = false) (hl : r.items = []) :
    Sender config fs (.body r) = ⟨fs, [], .crashed (.panic "index out of range")⟩ := by
  simp [Sender, he, hl]

theorem Sender_body_errors (config : Config) (fs : FileSys) (r : BulkResponse)
    (he : r.errors = true) :
    Sender config fs (.body r)
      = ⟨fs, [], .crashed (.fatal "elasticsearch reported errors on intake")⟩ := by
  simp [Sender, he]

theorem WriteFile_content (fs : FileSys) (name data : String)
    (hw : (fs name).fault = .noFault) :
    ((WriteFile fs name data).1 name).content = some data := by
  simp [WriteFile, hw]

theorem ProcessEntry_id (lowerRune : Char → Char) (config : Config) (e : Entry)
    (c : IndexCall) (h : ProcessEntry lowerRune config e = .ok c) : c.id = e.cursor := by
  simp only [ProcessEntry] at h
  split at h
  · cases h
  · cases h
    rfl

theorem submitted_ids (lowerRune : Char → Char) (config : Config) (entries : List Entry)
    (calls : List IndexCall)
    (h : List.Forall₂ (fun e c => ProcessEntry lowerRune config e = .ok c) entries calls) :
    calls.map (fun c => c.id) = entries.map (fun e => e.cursor) := by
  induction h with
  | nil => rfl
  | cons hd _ ih =>
    simp only [List.map_cons, ih, ProcessEntry_id _ _ _ _ hd]

/-! ## Go's date computation against the calendar -/

theorem year_cycles (A n400 d1 q n100 d2 n4 d3 q1 n1 d4 y : Nat)
    (h1 : n400 = A / 146097) (h2 : d1 = A - 146097 * n400)
    (h3 : q = d1 / 36524) (h4 : n100 = q - q / 4) (h5 : d2 = d1 - 36524 * n100)
    (h6 : n4 = d2 / 1461) (h7 : d3 = d2 - 1461 * n4)
    (h8 : q1 = d3 / 365) (h9 : n1 = q1 - q1 / 4) (h10 : d4 = d3 - 365 * n1)
    (hy : y = 400 * n400 + 100 * n100 + 4 * n4 + n1) :
    365 * y + y / 4 + y / 400 + d4 = A + y / 100 ∧
    (d4 < 365 ∨ (d4 = 365 ∧ (y + 1) % 4 = 0 ∧ ((y + 1) % 100 ≠ 0 ∨ (y + 1) % 400 = 0))) := by
  have b1 : d1 < 146097 ∧ A = 146097 * n400 + d1 := by omega
  have b2 : n100 ≤ 3 ∧ d1 = 36524 * n100 + d2 ∧ (d2 < 36524 ∨ (n100 = 3 ∧ d2 = 36524)) := by
    omega
  have b3 : n4 ≤ 24 ∧ d2 = 1461 * n4 + d3 ∧ d3 < 1461 := by omega
  have b4 : n1 ≤ 3 ∧ d3 = 365 * n1 + d4 ∧ (d4 < 365 ∨ (n1 = 3 ∧ d4 = 365)) := by omega
  clear h1 h2 h3 h4 h5 h6 h7 h8 h9 h10
  obtain ⟨_, b1b⟩ := b1
  obtain ⟨b2a, b2b, b2c⟩ := b2
  obtain ⟨b3a, b3b, b3c⟩ := b3
  obtain ⟨b4a, b4b, b4c⟩ := b4
  have e400 : y / 400 = n400 := by omega
  have e100 : y / 100 = 4 * n400 + n100 := by omega
  have e4 : y / 4 = 100 * n400 + 25 * n100 + n4 := by omega
  refine ⟨by omega, ?_⟩
  rcases b4c with h | ⟨h, h'⟩
  · exact Or.inl h
  · right
    refine ⟨h', by omega, ?_⟩
    by_cases hn4 : n4 = 24
    · right
      have : n100 = 3 := by omega
      omega
    · left
      omega

theorem absYearDay_spec (abs : Nat) :
    365 * (absYearDay abs).1 + (absYearDay abs).1 / 4 + (absYearDay abs).1 / 400
        + (absYearDay abs).2 = abs / 86400 + (absYearDay abs).1 / 100 ∧
    ((absYearDay abs).2 < 365 ∨ ((absYearDay abs).2 = 365 ∧ ((absYearDay abs).1 + 1) % 4 = 0 ∧
      (((absYearDay abs).1 + 1) % 100 ≠ 0 ∨ ((absYearDay abs).1 + 1) % 400 = 0))) :=
  year_cycles (abs / 86400) _ _ _ _ _ _ _ _ _ _ _ rfl rfl rfl rfl rfl rfl rfl rfl rfl rfl rfl

theorem leapYear_iff (y : Nat) :
    leapYear y = true ↔ y % 4 = 0 ∧ (y % 100 ≠ 0 ∨ y % 400 = 0) := by
  simp [leapYear]

theorem daysBeforeYear_closed (n : Nat) :
    daysBeforeYear n + 477 + (1969 + n) / 100 = 365 * n + (1969 + n) / 4 + (1969 + n) / 400 := by
  induction n with
  | zero => rfl
  | succ n ih =>
    simp only [daysBeforeYear, daysInYear]
    by_cases h : leapYear (1970 + n) = true
    · rw [if_pos h]
      have := (leapYear_iff _).mp h
      omega
    · rw [if_neg h]
      have := mt (leapYear_iff _).mpr h
      omega

set_option maxRecDepth 100000 in
theorem monthDay_common (yday : Nat) (h : yday < 365) :
    1 ≤ (monthDay false yday).1 ∧ (monthDay false yday).1 ≤ 12 ∧
    1 ≤ (monthDay false yday).2 ∧
    (monthDay false yday).2 ≤ monthLength false (monthDay false yday).1 ∧
    daysBeforeMonth false ((monthDay false yday).1 - 1) + ((monthDay false yday).2 - 1)
      = yday := by
  revert yday
  decide

set_option maxRecDepth 100000 in
theorem monthDay_leap (yday : Nat) (h : yday < 366) :
    1 ≤ (monthDay true yday).1 ∧ (monthDay true yday).1 ≤ 12 ∧
    1 ≤ (monthDay true yday).2 ∧
    (monthDay true yday).2 ≤ monthLength true (monthDay true yday).1 ∧
    daysBeforeMonth true ((monthDay true yday).1 - 1) + ((monthDay true yday).2 - 1)
      = yday := by
  revert yday
  decide

theorem isLeap_natCast (y : Nat) : isLeap ((y : Nat) : Int) = leapYear y := by
  unfold isLeap leapYear
  exact decide_eq_decide.mpr (by omega)

theorem monthDay_spec (leap : Bool) (yday : Nat)
    (h : yday < 365 ∨ (yday = 365 ∧ leap = true)) :
    1 ≤ (monthDay leap yday).1 ∧ (monthDay leap yday).1 ≤ 12 ∧
    1 ≤ (monthDay leap yday).2 ∧
    (monthDay leap yday).2 ≤ monthLength leap (monthDay leap yday).1 ∧
    daysBeforeMonth leap ((monthDay leap yday).1 - 1) + ((monthDay leap yday).2 - 1)
      = yday := by
  cases leap with
  | false =>
    apply monthDay_common
    rcases h with h | ⟨_, h⟩
    · exact h
    · cases h
  | true =>
    apply monthDay_leap
    omega

/-- The date Go computes for a count of seconds since the absolute zero that lies
`s` seconds after the Unix epoch is the calendar date of day `s / 86400`. -/
theorem absDate_civil (s : Nat) :
    ∃ y m d : Nat, absDate (s + 9223372028715321600) = (((y : Nat) : Int), m, d) ∧
      IsCivilDate (s / 86400) y m d := by
  obtain ⟨h1, h2⟩ := absYearDay_spec (s + 9223372028715321600)
  have hA : (s + 9223372028715321600) / 86400 = s / 86400 + 106751991073094 := by omega
  rw [hA] at h1
  generalize hY : (absYearDay (s + 9223372028715321600)).1 = Y at h1 h2
  generalize hD : (absYearDay (s + 9223372028715321600)).2 = D4 at h1 h2
  have hge : 292277024369 ≤ Y := by
    by_contra hlt
    have hlt' : Y ≤ 292277024368 := by omega
    rcases Nat.lt_or_ge Y 292277024368 with h | h
    · omega
    · have hYe : Y = 292277024368 := by omega
      subst hYe
      omega
  obtain ⟨n, rfl⟩ : ∃ n, Y = n + 292277024369 := ⟨Y - 292277024369, by omega⟩
  have hc := daysBeforeYear_closed n
  have hyear : ((n + 292277024369 : Nat) : Int) + absoluteZeroYear = ((1970 + n : Nat) : Int) := by
    unfold absoluteZeroYear
    push_cast
    omega
  have hdays : daysBeforeYear n + D4 = s / 86400 := by omega
  have hleap : D4 < 365 ∨ (D4 = 365 ∧ leapYear (1970 + n) = true) := by
    rcases h2 with h | ⟨h, h4, h100⟩
    · exact Or.inl h
    · right
      refine ⟨h, (leapYear_iff _).mpr ⟨by omega, ?_⟩⟩
      rcases h100 with h' | h'
      · left; omega
      · right; omega
  have hm := monthDay_spec (leapYear (1970 + n)) D4 hleap
  refine ⟨1970 + n, (monthDay (leapYear (1970 + n)) D4).1,
    (monthDay (leapYear (1970 + n)) D4).2, ?_, ?_⟩
  · simp only [absDate, hY, hD, hyear, isLeap_natCast]
  · obtain ⟨m1, m2, m3, m4, m5⟩ := hm
    refine ⟨by omega, m1, m2, m3, m4, ?_⟩
    have : 1970 + n - 1970 = n := by omega
    rw [this]
    omega

/-! ## The time of an entry -/

theorem entryTime_abs (t : Nat) (h : t / 1000000 + 9223372028715321600 < 2 ^ 64) :
    (entryTime t).abs = t / 1000000 + 9223372028715321600 := by
  have hn : ¬ ((((t % 1000000 : Nat) : Int) < 0) ∨ (((t % 1000000 : Nat) : Int) ≥ 1000000000)) := by
    omega
  have hu : unixToInternal = 62135596800 := by decide
  have hi : internalToAbsolute = 9223371966579724800 := by decide
  unfold entryTime Unix
  rw [if_neg hn]
  unfold Time.abs
  simp only [hu, hi]
  have h' : t / 1000000 + 9223372028715321600 < 18446744073709551616 := by
    simpa using h
  omega

theorem uint64_no_wrap (t : Nat) (h : t < 2 ^ 64) :
    t / 1000000 + 9223372028715321600 < 2 ^ 64 := by
  have h' : t < 18446744073709551616 := by simpa using h
  have : (2 : Nat) ^ 64 = 18446744073709551616 := by norm_num
  omega

theorem absClock_unix (s : Nat) :
    absClock (s + 9223372028715321600) = (s % 86400 / 3600, s % 3600 / 60, s % 60) := by
  unfold absClock secondsPerDay
  refine Prod.ext ?_ (Prod.ext ?_ ?_)
  · show (s + 9223372028715321600) % 86400 / 3600 = s % 86400 / 3600
    omega
  · show ((s + 9223372028715321600) % 86400
        - (s + 9223372028715321600) % 86400 / 3600 * 3600) / 60 = s % 3600 / 60
    omega
  · show ((s + 9223372028715321600) % 86400
        - (s + 9223372028715321600) % 86400 / 3600 * 3600)
        - ((s + 9223372028715321600) % 86400
          - (s + 9223372028715321600) % 86400 / 3600 * 3600) / 60 * 60 = s % 60
    omega

theorem appendInt_natCast (y width : Nat) : appendInt ((y : Nat) : Int) width = zeroPad width y := by
  unfold appendInt
  have : ¬ (((y : Nat) : Int) < 0) := by omega
  rw [if_neg this, Int.natAbs_ofNat]

theorem Format_layoutDate (t : Time) :
    t.Format layoutDate
      = appendInt (absDate t.abs).1 4 ++ "-" ++ zeroPad 2 (absDate t.abs).2.1 ++ "-"
        ++ zeroPad 2 (absDate t.abs).2.2 := by
  simp [Time.Format, layoutDate, formatChunk]

theorem Format_layoutStamp (t : Time) :
    t.Format layoutStamp
      = appendInt (absDate t.abs).1 4 ++ "-" ++ zeroPad 2 (absDate t.abs).2.1 ++ "-"
        ++ zeroPad 2 (absDate t.abs).2.2 ++ "T" ++ zeroPad 2 (absClock t.abs).1 ++ ":"
        ++ zeroPad 2 (absClock t.abs).2.1 ++ ":" ++ zeroPad 2 (absClock t.abs).2.2 ++ "Z" := by
  simp [Time.Format, layoutStamp, formatChunk]

theorem indexName_eq_of_seconds (config : Config) (t t' : Nat)
    (h : t / 1000000 + 9223372028715321600 < 2 ^ 64) (h' : t' / 1000000 = t / 1000000) :
    indexName config t' = indexName config t := by
  unfold indexName
  rw [Format_layoutDate, Format_layoutDate, entryTime_abs t h, entryTime_abs t' (h' ▸ h), h']

theorem zeroPad_length (w n : Nat) (hw : 0 < w) (h : n < 10 ^ w) :
    (zeroPad w n).length = w := by
  have hl := Nat.toDigitsCore_length 10 (by norm_num) (n + 1) n w h hw
  have hl' : (Nat.toDigits 10 n).length ≤ w := hl
  unfold zeroPad
  simp only [String.length, List.length_append, List.length_replicate]
  omega

theorem monthLength_le (leap : Bool) (m : Nat) : monthLength leap m ≤ 31 := by
  unfold monthLength
  split <;> try omega
  split <;> omega

/-- Before the year 10000 the year of a calendar date takes four digits, and the month
and the day always take two. -/
theorem civil_date_lengths (D y m d : Nat) (h : IsCivilDate D y m d) (hD : D < 2932897) :
    (zeroPad 4 y).length = 4 ∧ (zeroPad 2 m).length = 2 ∧ (zeroPad 2 d).length = 2 := by
  obtain ⟨hy, _, hm, _, hd, hsum⟩ := h
  have hc := daysBeforeYear_closed (y - 1970)
  have hml := monthLength_le (leapYear y) m
  have hy' : y < 10000 := by
    by_contra hge
    have : 8030 ≤ y - 1970 := by omega
    omega
  exact ⟨zeroPad_length 4 y (by norm_num) (by norm_num; omega),
    zeroPad_length 2 m (by norm_num) (by norm_num; omega),
    zeroPad_length 2 d (by norm_num) (by norm_num; omega)⟩

theorem date_length (D y m d : Nat) (h : IsCivilDate D y m d) (hD : D < 2932897) :
    (zeroPad 4 y ++ "-" ++ zeroPad 2 m ++ "-" ++ zeroPad 2 d).length = 10 := by
  obtain ⟨h1, h2, h3⟩ := civil_date_lengths D y m d h hD
  simp only [String.length_append, h1, h2, h3]
  rfl

theorem stamp_length (D y m d s : Nat) (h : IsCivilDate D y m d) (hD : D < 2932897) :
    (zeroPad 4 y ++ "-" ++ zeroPad 2 m ++ "-" ++ zeroPad 2 d ++ "T"
      ++ zeroPad 2 (s % 86400 / 3600) ++ ":" ++ zeroPad 2 (s % 3600 / 60) ++ ":"
      ++ zeroPad 2 (s % 60) ++ "Z").length = 20 := by
  obtain ⟨h1, h2, h3⟩ := civil_date_lengths D y m d h hD
  have h4 := zeroPad_length 2 (s % 86400 / 3600) (by norm_num) (by norm_num; omega)
  have h5 := zeroPad_length 2 (s % 3600 / 60) (by norm_num) (by norm_num; omega)
  have h6 := zeroPad_length 2 (s % 60) (by norm_num) (by norm_num; omega)
  simp only [String.length_append, h1, h2, h3, h4, h5, h6]
  rfl

/-! ## Lemmas on the row and on the field loop -/

theorem Row.get_assign_self (row : Row) (k v : String) : (row.assign k v).get k = some v := by
  unfold Row.get Row.assign
  rw [List.find?_append]
  have : (row.filter (fun p => decide (p.1 ≠ k))).find? (fun p => decide (p.1 = k)) = none := by
    rw [List.find?_eq_none]
    intro p hp
    have := (List.mem_filter.mp hp).2
    simpa using this
  rw [this]
  simp

theorem find?_filter_of_imp {α : Type} (p q : α → Bool) (l : List α)
    (hpq : ∀ x, p x = true → q x = true) : (l.filter q).find? p = l.find? p := by
  induction l with
  | nil => rfl
  | cons x l ih =>
    cases hq : q x with
    | true => simp [List.filter_cons, hq, List.find?_cons, ih]
    | false =>
      have hp : p x = false := by
        cases hp : p x with
        | false => rfl
        | true => rw [hpq x hp] at hq; cases hq
      simp [List.filter_cons, hq, List.find?_cons, hp, ih]

theorem countP_filter_of_imp {α : Type} (p q : α → Bool) (l : List α)
    (hpq : ∀ x, p x = true → q x = true) : (l.filter q).countP p = l.countP p := by
  induction l with
  | nil => rfl
  | cons x l ih =>
    cases hq : q x with
    | true => simp [List.filter_cons, hq, List.countP_cons, ih]
    | false =>
      have hp : p x = false := by
        cases hp : p x with
        | false => rfl
        | true => rw [hpq x hp] at hq; cases hq
      simp [List.filter_cons, hq, List.countP_cons, hp, ih]

theorem Row.get_assign_ne (row : Row) (k k' v : String) (h : k' ≠ k) :
    (row.assign k' v).get k = row.get k := by
  unfold Row.get Row.assign
  rw [List.find?_append, find?_filter_of_imp]
  · have : List.find? (fun p : String × String => decide (p.1 = k)) [(k', v)] = none := by
      simp [h]
    rw [this, Option.or_none]
  · intro x hx
    have hx' : x.1 = k := by simpa using hx
    have : x.1 ≠ k' := fun e => h (e.symm.trans hx')
    simpa using this

theorem Row.occurrences_assign_self (row : Row) (k v : String) :
    (row.assign k v).occurrences k = 1 := by
  unfold Row.occurrences Row.assign
  rw [List.countP_append]
  have : (row.filter (fun p => decide (p.1 ≠ k))).countP (fun p => decide (p.1 = k)) = 0 := by
    rw [List.countP_eq_zero]
    intro p hp
    have := (List.mem_filter.mp hp).2
    simpa using this
  rw [this]
  simp

theorem Row.occurrences_assign_ne (row : Row) (k k' v : String) (h : k' ≠ k) :
    (row.assign k' v).occurrences k = row.occurrences k := by
  unfold Row.occurrences Row.assign
  rw [List.countP_append, countP_filter_of_imp]
  · have : List.countP (fun p : String × String => decide (p.1 = k)) [(k', v)] = 0 := by
      simp [h]
    rw [this, Nat.add_zero]
  · intro x hx
    have hx' : x.1 = k := by simpa using hx
    have : x.1 ≠ k' := fun e => h (e.symm.trans hx')
    simpa using this

theorem cutAt_append (sep : Char) (k v : List Char) (h : sep ∉ k) :
    cutAt sep (k ++ sep :: v) = some (k, v) := by
  induction k with
  | nil => simp [cutAt]
  | cons c cs ih =>
    have hc : c ≠ sep := fun e => h (e ▸ List.mem_cons_self _ _)
    have hcs : sep ∉ cs := fun e => h (List.mem_cons_of_mem _ e)
    simp [cutAt, hc, ih hcs]

theorem SplitN_datum (K V : String) (h : '=' ∉ K.data) :
    SplitN (datum (K, V)) '=' 2 = [K, V] := by
  have hd : (datum (K, V)).data = K.data ++ '=' :: V.data := by
    simp [datum, String.data_append]
  unfold SplitN
  rw [hd, cutAt_append '=' K.data V.data h]
  simp [SplitN]

theorem TrimPrefix_underscore (s : String) : TrimPrefix s "_" = dropOneUnderscore s := by
  unfold TrimPrefix HasPrefix dropOneUnderscore
  rcases s with ⟨l⟩
  cases l with
  | nil => simp [List.isPrefixOf]
  | cons c rest =>
    by_cases hc : c = '_'
    · subst hc
      simp [List.isPrefixOf]
    · have hc' : ¬ ('_' = c) := fun e => hc e.symm
      simp [List.isPrefixOf, hc, hc']

theorem takeWhile_beforeNul (v : List Char) :
    v.takeWhile (fun c => decide (c ≠ Char.ofNat 0)) = beforeNul v := by
  induction v with
  | nil => rfl
  | cons c cs ih =>
    by_cases hc : c = Char.ofNat 0
    · simp [beforeNul, hc]
    · rw [List.takeWhile_cons, beforeNul, if_neg hc, ih]
      simp [hc]

theorem takeWhile_name_value (k v : List Char) (h : Char.ofNat 0 ∉ k) :
    (k ++ '=' :: v).takeWhile (fun c => decide (c ≠ Char.ofNat 0)) = k ++ '=' :: beforeNul v := by
  induction k with
  | nil =>
    have he : ('=' : Char) ≠ Char.ofNat 0 := by decide
    rw [List.nil_append, List.takeWhile_cons, takeWhile_beforeNul]
    simp [he]
  | cons c cs ih =>
    have hc : c ≠ Char.ofNat 0 := fun e => h (e ▸ List.mem_cons_self _ _)
    have hcs : Char.ofNat 0 ∉ cs := fun e => h (List.mem_cons_of_mem _ e)
    rw [List.cons_append, List.takeWhile_cons, ih hcs]
    simp [hc]

theorem GoString_datum (K V : String) (h0 : Char.ofNat 0 ∉ K.data) :
    GoString (datum (K, V)) = datum (K, upToNul V) := by
  have hd : (datum (K, V)).data = K.data ++ '=' :: V.data := by
    simp [datum, String.data_append]
  have hd' : (datum (K, upToNul V)).data = K.data ++ '=' :: beforeNul V.data := by
    simp [datum, upToNul, String.data_append]
  apply String.ext
  rw [hd']
  simp only [GoString, hd]
  exact takeWhile_name_value K.data V.data h0

theorem beforeNul_of_not_mem (v : List Char) (h : Char.ofNat 0 ∉ v) : beforeNul v = v := by
  induction v with
  | nil => rfl
  | cons c cs ih =>
    have hc : c ≠ Char.ofNat 0 := fun e => h (e ▸ List.mem_cons_self _ _)
    have hcs : Char.ofNat 0 ∉ cs := fun e => h (List.mem_cons_of_mem _ e)
    simp [beforeNul, hc, ih hcs]

theorem upToNul_of_not_mem (V : String) (h : Char.ofNat 0 ∉ V.data) : upToNul V = V := by
  apply String.ext
  exact beforeNul_of_not_mem V.data h

theorem processDatum_datum (lowerRune : Char → Char) (row : Row) (K V : String)
    (h : '=' ∉ K.data) (h0 : Char.ofNat 0 ∉ K.data) :
    processDatum lowerRune row (datum (K, V))
      = .ok (row.assign (normalKey lowerRune K) (upToNul V)) := by
  unfold processDatum
  simp only [GoString_datum K V h0, SplitN_datum K (upToNul V) h, normalKey,
    ← TrimPrefix_underscore]
  rfl

theorem ProcessEntryFields_append (lowerRune : Char → Char) (a b : List String) (row : Row) :
    ProcessEntryFields lowerRune row (a ++ b)
      = match ProcessEntryFields lowerRune row a with
        | .ok doc => ProcessEntryFields lowerRune doc b
        | .error c => .error c := by
  induction a generalizing row with
  | nil => rfl
  | cons d rest ih =>
    simp only [List.cons_append, ProcessEntryFields]
    cases processDatum lowerRune row d with
    | ok row' => exact ih row'
    | error c => rfl

theorem ProcessEntryFields_fold (lowerRune : Char → Char) (fields : List (String × String))
    (hk : ∀ f ∈ fields, '=' ∉ f.1.data ∧ Char.ofNat 0 ∉ f.1.data) (row : Row) :
    ProcessEntryFields lowerRune row (fields.map datum)
      = .ok (fields.foldl (fun r f => r.assign (normalKey lowerRune f.1) (upToNul f.2)) row) := by
  induction fields generalizing row with
  | nil => rfl
  | cons f rest ih =>
    have hf := hk f (List.mem_cons_self _ _)
    have hrest : ∀ g ∈ rest, '=' ∉ g.1.data ∧ Char.ofNat 0 ∉ g.1.data :=
      fun g hg => hk g (List.mem_cons_of_mem _ hg)
    simp only [List.map_cons, ProcessEntryFields, List.foldl_cons]
    rw [show datum f = datum (f.1, f.2) from rfl,
      processDatum_datum lowerRune row f.1 f.2 hf.1 hf.2]
    exact ih hrest _

theorem fold_assign_other (lowerRune : Char → Char) (k : String)
    (post : List (String × String)) (hpost : ∀ f ∈ post, normalKey lowerRune f.1 ≠ k)
    (row : Row) :
    (post.foldl (fun r f => r.assign (normalKey lowerRune f.1) (upToNul f.2)) row).get k
      = row.get k ∧
    (post.foldl (fun r f => r.assign (normalKey lowerRune f.1) (upToNul f.2)) row).occurrences k
      = row.occurrences k := by
  induction post generalizing row with
  | nil => exact ⟨rfl, rfl⟩
  | cons f rest ih =>
    have hf := hpost f (List.mem_cons_self _ _)
    have hrest : ∀ g ∈ rest, normalKey lowerRune g.1 ≠ k :=
      fun g hg => hpost g (List.mem_cons_of_mem _ hg)
    simp only [List.foldl_cons]
    obtain ⟨h1, h2⟩ := ih hrest (row.assign (normalKey lowerRune f.1) (upToNul f.2))
    exact ⟨h1.trans (Row.get_assign_ne row k _ _ hf),
      h2.trans (Row.occurrences_assign_ne row k _ _ hf)⟩

/-! ## Resuming the journal -/

theorem findIdx_cursor (before after : List Entry) (rc : Entry)
    (hfirst : ∀ e ∈ before, e.cursor ≠ rc.cursor) :
    (before ++ rc :: after).findIdx (fun e => decide (e.cursor = rc.cursor)) = before.length := by
  induction before with
  | nil => simp [List.findIdx_cons]
  | cons b rest ih =>
    have hb : b.cursor ≠ rc.cursor := hfirst b (List.mem_cons_self _ _)
    have hrest : ∀ e ∈ rest, e.cursor ≠ rc.cursor :=
      fun e he => hfirst e (List.mem_cons_of_mem _ he)
    simp [List.findIdx_cons, hb, ih hrest]

theorem get?_after (passed rest : List Entry) (nxt : Entry) :
    (passed ++ nxt :: rest).get? passed.length = some nxt := by
  induction passed with
  | nil => rfl
  | cons b l ih => simpa using ih

theorem InitJournal_checkpoint (host pfx state : String) (fs : FileSys)
    (before after : List Entry) (rc : Entry) (arrivals : List (List Entry))
    (closest : List (String × Nat))
    (hC : (fs state).content = some rc.cursor) (hne : rc.cursor ≠ "")
    (hfirst : ∀ e ∈ before, e.cursor ≠ rc.cursor) :
    InitJournal (NewService host pfx state) fs
        (some (before ++ rc :: after, arrivals, closest))
      = .ok { Config := { Host := host, Prefix := pfx, State := state }
              Journal := ⟨before ++ rc :: after, before.length + 1, arrivals,
                [.open, .seekCursor rc.cursor, .nextSkip 1], closest⟩
              Cursor := rc.cursor
              Indexer := [] } := by
  have hidx := findIdx_cursor before after rc hfirst
  have hlt : before.length < (before ++ rc :: after).length := by simp
  have hmin : min 1 ((before ++ rc :: after).length - before.length) = 1 := by
    simp
  simp [InitJournal, NewService, sd_journal_open, ReadFile, hC, hne, sd_journal_seek_cursor,
    sd_journal_next_skip, hidx]

theorem InitJournal_no_checkpoint (host pfx state : String) (fs : FileSys)
    (records : List Entry) (arrivals : List (List Entry)) (closest : List (String × Nat))
    (hC : (fs state).content = none ∨ (fs state).content = some "") :
    InitJournal (NewService host pfx state) fs (some (records, arrivals, closest))
      = .ok { Config := { Host := host, Prefix := pfx, State := state }
              Journal := ⟨records, 0, arrivals, [.open], closest⟩
              Cursor := ""
              Indexer := [] } := by
  rcases hC with hC | hC <;>
    simp [InitJournal, NewService, sd_journal_open, ReadFile, hC]

theorem next_yields (s : Service) (lowerRune : Char → Char) (passed rest : List Entry)
    (nxt : Entry) (hrec : s.Journal.records = passed ++ nxt :: rest)
    (hpos : s.Journal.pos = passed.length) :
    (sd_journal_next s.Journal).1 = 1 ∧
    (sd_journal_next s.Journal).2.current = some nxt ∧
    ∀ call, ProcessEntry lowerRune s.Config nxt = .ok call →
      ∃ s', ProcessStream lowerRune 1 s = .ok s' ∧ s'.Indexer = s.Indexer ++ [call] := by
  have hmin : min 1 (s.Journal.records.length - s.Journal.pos) = 1 := by
    rw [hrec, hpos]
    simp
  have hcur : (sd_journal_next s.Journal).2.current = some nxt := by
    have hg := get?_after passed rest nxt
    simp only [sd_journal_next, Journal.current, hmin, hrec, hpos]
    simpa using hg
  have h1 : (sd_journal_next s.Journal).1 = 1 := by
    simp [sd_journal_next, hmin]
  refine ⟨h1, hcur, ?_⟩
  intro call hcall
  refine ⟨{ s with Journal := (sd_journal_next s.Journal).2, Indexer := s.Indexer ++ [call] },
    ?_, rfl⟩
  simp [ProcessStream, h1, Service.ProcessEntry, hcur, hcall]

theorem wait_step (s : Service) (lowerRune : Char → Char) (fuel : Nat)
    (new : List Entry) (later : List (List Entry))
    (hpos : s.Journal.pos = s.Journal.records.length)
    (harr : s.Journal.arrivals = new :: later) :
    ProcessStream lowerRune (fuel + 1) s
      = ProcessStream lowerRune fuel
          { s with Journal := { s.Journal with
              records := s.Journal.records ++ new
              arrivals := later
              calls := s.Journal.calls ++ [.next] ++ [.wait] } } := by
  have hmin : min 1 (s.Journal.records.length - s.Journal.pos) = 0 := by omega
  have h1 : (sd_journal_next s.Journal).1 = 0 := by simp [sd_journal_next, hmin]
  have hj : (sd_journal_next s.Journal).2
      = { s.Journal with calls := s.Journal.calls ++ [.next] } := by
    simp [sd_journal_next, hmin]
  have hw : ¬ ((if new = [] then (0 : Int) else 1) < 0) := by
    split <;> omega
  rw [ProcessStream]
  simp only [h1, hj, sd_journal_wait, harr, lt_self_iff_false, if_false, if_true, hw]

theorem wait_then_yields (s : Service) (lowerRune : Char → Char)
    (nxt : Entry) (more : List Entry) (later : List (List Entry))
    (hpos : s.Journal.pos = s.Journal.records.length)
    (harr : s.Journal.arrivals = (nxt :: more) :: later) :
    ∀ call, ProcessEntry lowerRune s.Config nxt = .ok call →
      ∃ s', ProcessStream lowerRune 2 s = .ok s' ∧ s'.Indexer = s.Indexer ++ [call] := by
  intro call hcall
  rw [show (2 : Nat) = 1 + 1 from rfl, wait_step s lowerRune 1 (nxt :: more) later hpos harr]
  exact (next_yields
    { s with Journal := { s.Journal with
        records := s.Journal.records ++ (nxt :: more)
        arrivals := later
        calls := s.Journal.calls ++ [.next] ++ [.wait] } }
    lowerRune s.Journal.records more nxt rfl hpos).2.2 call hcall

theorem Service.ProcessEntry_ok (lowerRune : Char → Char) (s s' : Service)
    (h : Service.ProcessEntry lowerRune s = .ok s') :
    ∃ e call, s.Journal.current = some e ∧ call.id = e.cursor ∧
      s' = { s with Indexer := s.Indexer ++ [call] } := by
  unfold Service.ProcessEntry at h
  cases hcur : s.Journal.current with
  | none => rw [hcur] at h; cases h
  | some e =>
    rw [hcur] at h
    dsimp only at h
    cases hp : ElasticJournald.ProcessEntry lowerRune s.Config e with
    | error c => rw [hp] at h; cases h
    | ok call =>
      rw [hp] at h
      cases h
      exact ⟨e, call, rfl, ProcessEntry_id lowerRune s.Config e call hp, rfl⟩

theorem drop_take_succ (l : List Entry) (p k : Nat) (e : Entry) (h : l.get? p = some e) :
    (l.drop p).take (k + 1) = e :: (l.drop (p + 1)).take k := by
  induction l generalizing p with
  | nil => cases h
  | cons a l ih =>
    cases p with
    | zero =>
      simp at h
      subst h
      rfl
    | succ p =>
      simp only [List.drop_succ_cons]
      exact ih p (by simpa using h)

/-- The ids the stream hands to the indexer are the cursors of the entries after the
read position, in order, with none left out and none repeated. -/
theorem ProcessStream_ids (lowerRune : Char → Char) (fuel : Nat) :
    ∀ s s' : Service, s.Journal.pos ≤ s.Journal.records.length →
      ProcessStream lowerRune fuel s = .ok s' →
      ∃ k, s'.Indexer.map (fun c => c.id)
        = s.Indexer.map (fun c => c.id)
          ++ ((s.Journal.allRecords.drop s.Journal.pos).take k).map (fun e => e.cursor) := by
  induction fuel with
  | zero =>
    intro s s' _ h
    simp only [ProcessStream] at h
    cases h
    exact ⟨0, by simp⟩
  | succ fuel ih =>
    intro s s' hpos h
    rcases Nat.lt_or_ge s.Journal.pos s.Journal.records.length with hlt | hge
    · have hmin : min 1 (s.Journal.records.length - s.Journal.pos) = 1 := by omega
      have h1 : (sd_journal_next s.Journal).1 = 1 := by simp [sd_journal_next, hmin]
      have hj : (sd_journal_next s.Journal).2
          = { s.Journal with pos := s.Journal.pos + 1, calls := s.Journal.calls ++ [.next] } := by
        simp [sd_journal_next, hmin]
      simp only [ProcessStream, h1] at h
      rw [hj] at h
      cases hp : Service.ProcessEntry lowerRune
          { s with Journal := { s.Journal with pos := s.Journal.pos + 1,
                                               calls := s.Journal.calls ++ [.next] } } with
      | error c =>
        rw [hp] at h
        simp at h
      | ok s1 =>
        rw [hp] at h
        have h' : ProcessStream lowerRune fuel s1 = .ok s' := by simpa using h
        obtain ⟨e, call, hcur, hid, hs1⟩ := Service.ProcessEntry_ok lowerRune _ s1 hp
        have hcur' : s.Journal.records.get? s.Journal.pos = some e := by
          simpa [Journal.current] using hcur
        have hall : s.Journal.allRecords.get? s.Journal.pos = some e := by
          unfold Journal.allRecords
          rw [List.get?_eq_getElem?, List.getElem?_append_left hlt, ← List.get?_eq_getElem?]
          exact hcur'
        subst hs1
        obtain ⟨k, hk⟩ := ih _ s' (by simpa using hlt) h'
        refine ⟨k + 1, ?_⟩
        rw [hk, drop_take_succ _ _ _ _ hall]
        simp [Journal.allRecords, hid]
    · have hmin : min 1 (s.Journal.records.length - s.Journal.pos) = 0 := by omega
      have h1 : (sd_journal_next s.Journal).1 = 0 := by simp [sd_journal_next, hmin]
      have hj : (sd_journal_next s.Journal).2
          = { s.Journal with calls := s.Journal.calls ++ [.next] } := by
        simp [sd_journal_next, hmin]
      simp only [ProcessStream, h1] at h
      rw [hj] at h
      cases harr : s.Journal.arrivals with
      | nil =>
        simp only [sd_journal_wait, harr] at h
        simp only [lt_self_iff_false, if_false, if_true] at h
        obtain ⟨k, hk⟩ := ih _ s' (by simpa using hpos) h
        exact ⟨k, by simpa [Journal.allRecords, harr] using hk⟩
      | cons new later =>
        simp only [sd_journal_wait, harr] at h
        have hw : ¬ ((if new = [] then (0 : Int) else 1) < 0) := by
          split <;> omega
        simp only [lt_self_iff_false, if_false, if_true, hw] at h
        obtain ⟨k, hk⟩ := ih _ s' (by simp; omega) h
        exact ⟨k, by simpa [Journal.allRecords, harr] using hk⟩

/-! ## The checkpoint written by the Sender -/

/-- C1: for a batch of entries submitted through `ProcessEntry` (the calls `calls`, in
order) whose `N`-th and last entry is `last`, and a bulk response without the errors
flag whose items carry the submitted ids in order, the Sender makes exactly one
`WriteFile` call, on the state file with the cursor of `last`, returns nil, and a
state file then holds that cursor when the write goes through. -/
theorem C1_checkpoint_is_last_cursor (lowerRune : Char → Char) (config : Config)
    (fs : FileSys) (entries : List Entry) (calls : List IndexCall) (r : BulkResponse)
    (last : Entry)
    (hsub : List.Forall₂ (fun e c => ProcessEntry lowerRune config e = .ok c) entries calls)
    (hlast : entries.getLast? = some last)
    (herr : r.errors = false)
    (hids : r.items.map (fun it => it.id) = calls.map (fun c => c.id)) :
    (Sender config fs (.body r)).writes = [(config.State, last.cursor)] ∧
    (Sender config fs (.body r)).result = .returned none ∧
    ((fs config.State).fault = .noFault →
      ((Sender config fs (.body r)).fs config.State).content = some last.cursor) := by
  rw [submitted_ids lowerRune config entries calls hsub] at hids
  have h1 : (r.items.map (fun it => it.id)).getLast? = some last.cursor := by
    rw [hids, List.getLast?_map, hlast]
    rfl
  rw [List.getLast?_map] at h1
  cases hitem : r.items.getLast? with
  | none => rw [hitem] at h1; cases h1
  | some item =>
    rw [hitem] at h1
    have hid : item.id = last.cursor := by simpa using h1
    rw [Sender_body_last config fs r item herr hitem, hid]
    exact ⟨rfl, rfl, fun hw => WriteFile_content fs config.State last.cursor hw⟩

theorem C1_checkpoint_is_last_cursor_witness :
    (Sender demoConfig demoFiles (.body ackBoth)).writes = [(demoConfig.State, "c2")] ∧
    (Sender demoConfig demoFiles (.body ackBoth)).result = .returned none ∧
    ((demoFiles demoConfig.State).fault = .noFault →
      ((Sender demoConfig demoFiles (.body ackBoth)).fs demoConfig.State).content
        = some "c2") :=
  C1_checkpoint_is_last_cursor asciiLower demoConfig demoFiles demoEntries demoCalls ackBoth
    { realtime := 1709632801500000, cursor := "c2", data := ["MESSAGE=x=y"] }
    (List.Forall₂.cons (by decide) (List.Forall₂.cons (by decide) List.Forall₂.nil))
    (by decide) (by decide) (by decide)

/-- C2, as stated, fails: a response to a batch of two with one item only, and a
response whose second item carries an error, both with the errors flag false, make the
Sender overwrite the checkpoint `c0`. -/
theorem C2_counterexample :
    demoCalls.length = 2 ∧
    ackShort.items.length ≠ demoCalls.length ∧
    (demoFiles demoConfig.State).content = some "c0" ∧
    (Sender demoConfig demoFiles (.body ackShort)).writes = [(demoConfig.State, "c1")] ∧
    ((Sender demoConfig demoFiles (.body ackShort)).fs demoConfig.State).content
      = some "c1" ∧
    (∃ it ∈ ackItemError.items, it.error ≠ none) ∧
    (Sender demoConfig demoFiles (.body ackItemError)).writes
      = [(demoConfig.State, "c2")] ∧
    ((Sender demoConfig demoFiles (.body ackItemError)).fs demoConfig.State).content
      = some "c2" := by
  refine ⟨by decide, by decide, by decide, by decide, by decide, ?_, by decide, by decide⟩
  exact ⟨⟨"c2", some "mapper_parsing_exception"⟩, by decide, by decide⟩

/-- C2, amended: when the errors flag of the response is set or its items list is
empty, the Sender ends the process without a `WriteFile` call and the files are as
before. -/
theorem C2_no_write_on_errors_flag_or_no_items (config : Config) (fs : FileSys)
    (r : BulkResponse) (h : r.errors = true ∨ r.items = []) :
    (Sender config fs (.body r)).writes = [] ∧
    (Sender config fs (.body r)).fs = fs ∧
    ∃ c, (Sender config fs (.body r)).result = .crashed c := by
  cases he : r.errors with
  | true =>
    rw [Sender_body_errors config fs r he]
    exact ⟨rfl, rfl, _, rfl⟩
  | false =>
    have hl : r.items = [] := by
      rcases h with h | h
      · rw [he] at h; cases h
      · exact h
    rw [Sender_body_empty config fs r he hl]
    exact ⟨rfl, rfl, _, rfl⟩

theorem C2_no_write_on_errors_flag_or_no_items_witness :
    (Sender demoConfig demoFiles (.body ackErrors)).writes = [] ∧
    (Sender demoConfig demoFiles (.body ackErrors)).fs = demoFiles ∧
    ∃ c, (Sender demoConfig demoFiles (.body ackErrors)).result = .crashed c :=
  C2_no_write_on_errors_flag_or_no_items demoConfig demoFiles ackErrors (Or.inl (by decide))

/-- C3, the code at the failing input: with a state file that cannot be opened for
writing, `WriteFile` returns an error, the checkpoint stays `c0`, and the Sender
returns nil for a fully acknowledged response; with a write that fails after the open,
the state file is left empty and the Sender returns nil all the same; a transport
error and a set errors flag end the process. -/
theorem C3_write_error_dropped :
    (WriteFile readOnlyFiles demoConfig.State "c2").2 = some "open: permission denied" ∧
    (Sender demoConfig readOnlyFiles (.body ackBoth)).writes = [(demoConfig.State, "c2")] ∧
    ((Sender demoConfig readOnlyFiles (.body ackBoth)).fs demoConfig.State).content
      = some "c0" ∧
    (Sender demoConfig readOnlyFiles (.body ackBoth)).result = .returned none ∧
    (WriteFile fullDiskFiles demoConfig.State "c2").2
      = some "write: no space left on device" ∧
    ((Sender demoConfig fullDiskFiles (.body ackBoth)).fs demoConfig.State).content
      = some "" ∧
    (Sender demoConfig fullDiskFiles (.body ackBoth)).result = .returned none ∧
    (∃ c, (Sender demoConfig readOnlyFiles (.transportError "reset")).result = .crashed c) ∧
    (∃ c, (Sender demoConfig readOnlyFiles (.body ackErrors)).result = .crashed c) := by
  refine ⟨by decide, by decide, by decide, by decide, by decide, by decide, by decide,
    ⟨_, rfl⟩, ⟨_, rfl⟩⟩

/-- C10: for a decoded response without the errors flag, the index
`len(items) - 1` of the last item is within bounds exactly when the items list is not
empty; then the lookup finds an item and the Sender returns, and for an empty list the
Sender ends in a run-time panic with no `WriteFile` call and the files as before. -/
theorem C10_last_item_lookup (config : Config) (fs : FileSys) (r : BulkResponse)
    (he : r.errors = false) :
    ((0 ≤ (r.items.length : Int) - 1 ∧ (r.items.length : Int) - 1 < r.items.length)
      ↔ r.items ≠ []) ∧
    (r.items ≠ [] →
      (r.items.get? ((r.items.length : Int) - 1).toNat).isSome = true ∧
      (Sender config fs (.body r)).result = .returned none) ∧
    (r.items = [] →
      r.items.get? ((r.items.length : Int) - 1).toNat = none ∧
      (Sender config fs (.body r)).result = .crashed (.panic "index out of range") ∧
      (Sender config fs (.body r)).writes = [] ∧
      (Sender config fs (.body r)).fs = fs) := by
  refine ⟨?_, ?_, ?_⟩
  · constructor
    · intro h hnil
      rw [hnil] at h
      simp at h
    · intro h
      have : 0 < r.items.length := List.length_pos.mpr h
      omega
  · intro h
    cases hl : r.items.getLast? with
    | none => exact absurd (List.getLast?_eq_none_iff.mp hl) h
    | some item =>
      have hpos : 0 < r.items.length := List.length_pos.mpr h
      have hn : ((r.items.length : Int) - 1).toNat = r.items.length - 1 := by omega
      refine ⟨?_, ?_⟩
      · rw [hn, List.get?_eq_getElem?, ← List.getLast?_eq_getElem?, hl]
        rfl
      · rw [Sender_body_last config fs r item he hl]
  · intro h
    rw [Sender_body_empty config fs r he h]
    refine ⟨?_, rfl, rfl, rfl⟩
    rw [h]
    rfl

theorem C10_last_item_lookup_witness :
    ((0 ≤ (ackBoth.items.length : Int) - 1 ∧
        (ackBoth.items.length : Int) - 1 < ackBoth.items.length) ↔ ackBoth.items ≠ []) ∧
    (ackBoth.items ≠ [] →
      (ackBoth.items.get? ((ackBoth.items.length : Int) - 1).toNat).isSome = true ∧
      (Sender demoConfig demoFiles (.body ackBoth)).result = .returned none) ∧
    (ackBoth.items = [] →
      ackBoth.items.get? ((ackBoth.items.length : Int) - 1).toNat = none ∧
      (Sender demoConfig demoFiles (.body ackBoth)).result
        = .crashed (.panic "index out of range") ∧
      (Sender demoConfig demoFiles (.body ackBoth)).writes = [] ∧
      (Sender demoConfig demoFiles (.body ackBoth)).fs = demoFiles) :=
  C10_last_item_lookup demoConfig demoFiles ackBoth (by decide)

/-- C8, as stated, fails: with `flightFails` submitted before `flightAcked` and both in
flight, the completion of the later one writes its cursor `c2` over the checkpoint `c0`
while the earlier one is still pending; when the earlier one then fails, the process
ends and the state file keeps `c2`, past the unacknowledged entry `c1`. -/
theorem C8_counterexample :
    twoInFlight.pending = [flightFails, flightAcked] ∧
    (twoInFlight.fs demoConfig.State).content = some "c0" ∧
    (completeFlush demoConfig twoInFlight 1).pending = [flightFails] ∧
    (completeFlush demoConfig twoInFlight 1).writes = [(demoConfig.State, "c2")] ∧
    ((completeFlush demoConfig twoInFlight 1).fs demoConfig.State).content = some "c2" ∧
    (completeFlush demoConfig (completeFlush demoConfig twoInFlight 1) 0).crashed
      = some (.fatal "Bulk error: connection reset") ∧
    ((completeFlush demoConfig (completeFlush demoConfig twoInFlight 1) 0).fs
      demoConfig.State).content = some "c2" := by
  refine ⟨by decide, by decide, by decide, by decide, by decide, by decide, by decide⟩

/-- C8, amended: the checkpoint follows the order of completion.  Whatever else is in
flight, when the flush at position `i` completes with a response without the errors
flag whose last item is `item`, its Sender writes the id of `item` to the state file
at once, and the state file then holds it when the write goes through. -/
theorem C8_checkpoint_follows_completion (config : Config) (p : Pipeline) (i : Nat)
    (f : Flight) (r : BulkResponse) (item : BulkItem)
    (hrun : p.crashed = none)
    (hf : p.pending.get? i = some f)
    (hr : f.reply = .body r)
    (he : r.errors = false)
    (hl : r.items.getLast? = some item) :
    (completeFlush config p i).pending = p.pending.eraseIdx i ∧
    (completeFlush config p i).writes = p.writes ++ [(config.State, item.id)] ∧
    (completeFlush config p i).crashed = none ∧
    ((p.fs config.State).fault = .noFault →
      ((completeFlush config p i).fs config.State).content = some item.id) := by
  have hs := Sender_body_last config p.fs r item he hl
  unfold completeFlush
  rw [hrun, hf]
  dsimp only
  rw [hr, hs]
  exact ⟨rfl, rfl, rfl, fun hw => WriteFile_content p.fs config.State item.id hw⟩

theorem C8_checkpoint_follows_completion_witness :
    (completeFlush demoConfig twoInFlight 1).pending = twoInFlight.pending.eraseIdx 1 ∧
    (completeFlush demoConfig twoInFlight 1).writes
      = twoInFlight.writes ++ [(demoConfig.State, "c2")] ∧
    (completeFlush demoConfig twoInFlight 1).crashed = none ∧
    ((twoInFlight.fs demoConfig.State).fault = .noFault →
      ((completeFlush demoConfig twoInFlight 1).fs demoConfig.State).content
        = some "c2") :=
  C8_checkpoint_follows_completion demoConfig twoInFlight 1 flightAcked
    { took := 3, errors := false, items := [⟨"c2", none⟩] } ⟨"c2", none⟩
    (by decide) (by decide) (by decide) (by decide) (by decide)

/-! ## The index name and the timestamp field -/

/-- C6: for every prefix and every microsecond timestamp `t` of a `uint64`, the index
name is the prefix, a hyphen, and the year, month and day of the calendar date of day
`t / 10^6 / 86400` after 1 January 1970, separated by hyphens and zero padded to four,
two and two digits; before the year 10000 that date takes exactly ten characters; and
a timestamp with the same whole seconds gives the same index name. -/
theorem C6_index_name (config : Config) (t : Nat) (ht : t < 2 ^ 64) :
    (∃ y m d : Nat, IsCivilDate (t / 1000000 / 86400) y m d ∧
      indexName config t
        = config.Prefix ++ "-" ++ (zeroPad 4 y ++ "-" ++ zeroPad 2 m ++ "-" ++ zeroPad 2 d) ∧
      (t < 253402300800000000 →
        (zeroPad 4 y ++ "-" ++ zeroPad 2 m ++ "-" ++ zeroPad 2 d).length = 10)) ∧
    (∀ t' : Nat, t' / 1000000 = t / 1000000 → indexName config t' = indexName config t) := by
  have hw := uint64_no_wrap t ht
  refine ⟨?_, fun t' h' => indexName_eq_of_seconds config t t' hw h'⟩
  obtain ⟨y, m, d, hd, hc⟩ := absDate_civil (t / 1000000)
  refine ⟨y, m, d, hc, ?_, fun hlt => date_length _ y m d hc (by omega)⟩
  unfold indexName
  rw [Format_layoutDate, entryTime_abs t hw, hd, appendInt_natCast]

theorem C6_index_name_witness :
    1709632800000000 < 2 ^ 64 ∧
    indexName demoConfig 1709632800000000 = "journald-2024-03-05" ∧
    IsCivilDate (1709632800000000 / 1000000 / 86400) 2024 3 5 ∧
    (∀ t' : Nat, t' / 1000000 = 1709632800000000 / 1000000 →
      indexName demoConfig t' = "journald-2024-03-05") :=
  ⟨by decide, by decide, by unfold IsCivilDate; decide,
    fun t' h => ((C6_index_name demoConfig 1709632800000000 (by decide)).2 t' h).trans
      (by decide)⟩

/-! ## The normalised document -/

/-- C9, as stated, fails: the datum `MESSAGE=a\0b`, whose value holds a NUL byte, is
stored as `a`, not with its value unchanged. -/
theorem C9_counterexample :
    "MESSAGE" ++ "=" ++ "a\x00b" = "MESSAGE=a\x00b" ∧
    '=' ∉ "MESSAGE".data ∧
    ProcessEntryFields asciiLower [] ["MESSAGE=a\x00b"] = .ok [("message", "a")] ∧
    Row.get [("message", "a")] "message" ≠ some "a\x00b" := by
  refine ⟨by decide, by decide, by decide, by decide⟩

/-- C9, amended: for a raw field datum `K=V` whose name `K` holds neither `=` nor a
NUL byte, `ProcessEntryFields` stores, under the key that is `K` lower-cased and then
freed of one leading underscore, the value `V` cut at its first NUL byte, with no other
change; so `V` itself, further `=` included, when it holds no NUL byte.  This is so for
the datum alone and after any data processed before it, and the row then holds the
key once. -/
theorem C9_field_key_value (lowerRune : Char → Char) (row : Row) (K V : String)
    (hK : '=' ∉ K.data) (hK0 : Char.ofNat 0 ∉ K.data) :
    ProcessEntryFields lowerRune row [K ++ "=" ++ V]
      = .ok (row.assign (normalKey lowerRune K) (upToNul V)) ∧
    (∀ (earlier : List String) (doc : Row),
      ProcessEntryFields lowerRune row earlier = .ok doc →
      ProcessEntryFields lowerRune row (earlier ++ [K ++ "=" ++ V])
        = .ok (doc.assign (normalKey lowerRune K) (upToNul V))) ∧
    (row.assign (normalKey lowerRune K) (upToNul V)).get (normalKey lowerRune K)
      = some (upToNul V) ∧
    (row.assign (normalKey lowerRune K) (upToNul V)).occurrences (normalKey lowerRune K) = 1 ∧
    (Char.ofNat 0 ∉ V.data → upToNul V = V) := by
  have h := processDatum_datum lowerRune row K V hK hK0
  have hone : ∀ r : Row, ProcessEntryFields lowerRune r [K ++ "=" ++ V]
      = .ok (r.assign (normalKey lowerRune K) (upToNul V)) := by
    intro r
    have hr := processDatum_datum lowerRune r K V hK hK0
    simp only [datum] at hr
    simp only [ProcessEntryFields, hr]
  refine ⟨hone row, ?_, Row.get_assign_self _ _ _, Row.occurrences_assign_self _ _ _,
    upToNul_of_not_mem V⟩
  intro earlier doc hdoc
  rw [ProcessEntryFields_append, hdoc]
  exact hone doc

theorem C9_field_key_value_witness :
    ProcessEntryFields asciiLower [] ["__Host= A=b "] = .ok [("_host", " A=b ")] ∧
    ProcessEntryFields asciiLower [("uid", "7")] ["MESSAGE=Hello, World", "_UID=0"]
      = .ok [("message", "Hello, World"), ("uid", "0")] ∧
    ProcessEntryFields asciiLower [] ["PRIORITY=", "MESSAGE=a\x00b"]
      = .ok [("priority", ""), ("message", "a")] :=
  ⟨(C9_field_key_value asciiLower [] "__Host" " A=b " (by decide) (by decide)).1,
    by decide, by decide⟩

/-- C5, as stated, fails: `_HOSTNAME=web1` and then `HOSTNAME=a\0b` have distinct names
with the same normalised key, and the document holds `hostname` once with the value
`a`, which is not the value of the last field. -/
theorem C5_counterexample :
    "_HOSTNAME" ≠ "HOSTNAME" ∧
    normalKey asciiLower "_HOSTNAME" = "hostname" ∧
    normalKey asciiLower "HOSTNAME" = "hostname" ∧
    ProcessEntryFields asciiLower [] ["_HOSTNAME=web1", "HOSTNAME=a\x00b"]
      = .ok [("hostname", "a")] ∧
    Row.get [("hostname", "a")] "hostname" ≠ some "a\x00b" := by
  refine ⟨by decide, by decide, by decide, by decide, by decide⟩

/-- C5, amended: for raw fields enumerated in any order, each a datum `K=V` whose name
holds neither `=` nor a NUL byte, take a field `(K, V)` after which no field has a
name with the same normalised key (whatever came before it): the document built by
`ProcessEntryFields` holds that key exactly once, with the value `V` of this last
field cut at its first NUL byte, so with `V` itself when it holds none. -/
theorem C5_last_field_wins (lowerRune : Char → Char) (row : Row)
    (before after : List (String × String)) (K V : String)
    (hk : ∀ f ∈ before ++ (K, V) :: after, '=' ∉ f.1.data ∧ Char.ofNat 0 ∉ f.1.data)
    (hlast : ∀ f ∈ after, normalKey lowerRune f.1 ≠ normalKey lowerRune K) :
    ∃ doc : Row,
      ProcessEntryFields lowerRune row
        ((before ++ (K, V) :: after).map (fun f => f.1 ++ "=" ++ f.2)) = .ok doc ∧
      doc.occurrences (normalKey lowerRune K) = 1 ∧
      doc.get (normalKey lowerRune K) = some (upToNul V) ∧
      (Char.ofNat 0 ∉ V.data → doc.get (normalKey lowerRune K) = some V) := by
  refine ⟨_, ProcessEntryFields_fold lowerRune _ hk row, ?_⟩
  rw [List.foldl_append, List.foldl_cons]
  obtain ⟨h1, h2⟩ := fold_assign_other lowerRune (normalKey lowerRune K) after hlast
    ((before.foldl (fun r f => r.assign (normalKey lowerRune f.1) (upToNul f.2)) row).assign
      (normalKey lowerRune K) (upToNul V))
  have hget := h1.trans (Row.get_assign_self _ _ _)
  refine ⟨h2.trans (Row.occurrences_assign_self _ _ _), hget, fun h0 => ?_⟩
  rw [hget, upToNul_of_not_mem V h0]

theorem C5_last_field_wins_witness :
    ProcessEntryFields asciiLower [] ["_HOST=a", "host=b"] = .ok [("host", "b")] ∧
    ∃ doc : Row,
      ProcessEntryFields asciiLower [] ["_HOST=a", "host=b"] = .ok doc ∧
      doc.occurrences "host" = 1 ∧ doc.get "host" = some "b" := by
  refine ⟨by decide, ?_⟩
  obtain ⟨doc, h1, h2, h3, _⟩ :=
    C5_last_field_wins asciiLower [] [("_HOST", "a")] [] "host" "b" (by decide) (by decide)
  exact ⟨doc, h1, h2, h3⟩

set_option maxRecDepth 100000 in
/-- C7, as stated, fails: for an entry that enumerates a raw field `TIMESTAMP`, the
`timestamp` field of the document is the value of that raw field, not the rendering of
the entry's own time. -/
theorem C7_counterexample :
    (entryTime stampedEntry.realtime).Format layoutStamp = "2024-03-05T10:00:00Z" ∧
    ProcessEntry asciiLower demoConfig stampedEntry
      = .ok { index := "journald-2024-03-05", type := "journal", id := "c3",
              doc := [("message", "started"), ("timestamp", "yesterday")] } ∧
    Row.get [("message", "started"), ("timestamp", "yesterday")] "timestamp"
      = some "yesterday" := by
  refine ⟨by decide, by decide, by decide⟩

/-- C7, amended: for every entry with a `uint64` time whose raw fields are data `K=V`
(no `=` and no NUL byte in `K`) none of which has a name that normalises to `timestamp`,
`ProcessEntry` gives a document that holds `timestamp` exactly once, and its value is
the calendar date of day `t / 10^6 / 86400` after 1 January 1970 as year, month and
day, a `T`, the hour, minute and second of the whole seconds `t / 10^6` within the
day, and a `Z`, each part zero padded; before the year 10000 these are exactly twenty
characters. -/
theorem C7_timestamp_field (lowerRune : Char → Char) (config : Config) (e : Entry)
    (fields : List (String × String))
    (ht : e.realtime < 2 ^ 64)
    (hdata : e.data = fields.map (fun f => f.1 ++ "=" ++ f.2))
    (hk : ∀ f ∈ fields, '=' ∉ f.1.data ∧ Char.ofNat 0 ∉ f.1.data)
    (hno : ∀ f ∈ fields, normalKey lowerRune f.1 ≠ "timestamp") :
    ∃ call : IndexCall, ProcessEntry lowerRune config e = .ok call ∧
      call.doc.occurrences "timestamp" = 1 ∧
      ∃ y m d : Nat, IsCivilDate (e.realtime / 1000000 / 86400) y m d ∧
        call.doc.get "timestamp"
          = some (zeroPad 4 y ++ "-" ++ zeroPad 2 m ++ "-" ++ zeroPad 2 d ++ "T"
              ++ zeroPad 2 (e.realtime / 1000000 % 86400 / 3600) ++ ":"
              ++ zeroPad 2 (e.realtime / 1000000 % 3600 / 60) ++ ":"
              ++ zeroPad 2 (e.realtime / 1000000 % 60) ++ "Z") ∧
        (e.realtime < 253402300800000000 →
          (zeroPad 4 y ++ "-" ++ zeroPad 2 m ++ "-" ++ zeroPad 2 d ++ "T"
              ++ zeroPad 2 (e.realtime / 1000000 % 86400 / 3600) ++ ":"
              ++ zeroPad 2 (e.realtime / 1000000 % 3600 / 60) ++ ":"
              ++ zeroPad 2 (e.realtime / 1000000 % 60) ++ "Z").length = 20) := by
  have hw := uint64_no_wrap e.realtime ht
  have hfold := ProcessEntryFields_fold lowerRune fields hk
    (Row.assign [] "timestamp" ((entryTime e.realtime).Format layoutStamp))
  have hdata' : e.data = fields.map datum := hdata
  obtain ⟨h1, h2⟩ := fold_assign_other lowerRune "timestamp" fields hno
    (Row.assign [] "timestamp" ((entryTime e.realtime).Format layoutStamp))
  refine ⟨{ index := indexName config e.realtime, type := "journal", id := e.cursor,
             doc := fields.foldl
               (fun r f => r.assign (normalKey lowerRune f.1) (upToNul f.2))
               (Row.assign [] "timestamp" ((entryTime e.realtime).Format layoutStamp)) },
    ?_, ?_, ?_⟩
  · simp only [ProcessEntry, hdata', hfold]
  · exact h2.trans (Row.occurrences_assign_self _ _ _)
  · obtain ⟨y, m, d, hd, hc⟩ := absDate_civil (e.realtime / 1000000)
    refine ⟨y, m, d, hc, ?_, fun hlt => stamp_length _ y m d _ hc (by omega)⟩
    refine (h1.trans (Row.get_assign_self _ _ _)).trans ?_
    rw [Format_layoutStamp, entryTime_abs e.realtime hw, hd, appendInt_natCast, absClock_unix]

theorem C7_timestamp_field_witness :
    ∃ call : IndexCall,
      ProcessEntry asciiLower demoConfig
        { realtime := 1709632800999999, cursor := "c1", data := ["_HOST=a", "host=b"] }
        = .ok call ∧
      call.doc.occurrences "timestamp" = 1 ∧
      ∃ y m d : Nat, IsCivilDate (1709632800999999 / 1000000 / 86400) y m d ∧
        call.doc.get "timestamp"
          = some (zeroPad 4 y ++ "-" ++ zeroPad 2 m ++ "-" ++ zeroPad 2 d ++ "T"
              ++ zeroPad 2 (1709632800999999 / 1000000 % 86400 / 3600) ++ ":"
              ++ zeroPad 2 (1709632800999999 / 1000000 % 3600 / 60) ++ ":"
              ++ zeroPad 2 (1709632800999999 / 1000000 % 60) ++ "Z") ∧
        (1709632800999999 < 253402300800000000 →
          (zeroPad 4 y ++ "-" ++ zeroPad 2 m ++ "-" ++ zeroPad 2 d ++ "T"
              ++ zeroPad 2 (1709632800999999 / 1000000 % 86400 / 3600) ++ ":"
              ++ zeroPad 2 (1709632800999999 / 1000000 % 3600 / 60) ++ ":"
              ++ zeroPad 2 (1709632800999999 / 1000000 % 60) ++ "Z").length = 20) :=
  C7_timestamp_field asciiLower demoConfig
    { realtime := 1709632800999999, cursor := "c1", data := ["_HOST=a", "host=b"] }
    [("_HOST", "a"), ("host", "b")] (by decide) (by decide) (by decide) (by decide)

/-- C4: with the journal a sequence of entries and a read position.  (1) When the state
file holds the non-empty cursor of the entry `rc` (the first entry with that cursor),
`InitJournal` opens, seeks to the cursor and skips one entry, which leaves `rc` the
current entry; if an entry follows `rc`, the first `sd_journal_next` of `ProcessStream`
succeeds and yields exactly that entry, which is the first one handed to the indexer;
if none follows yet and the next wait brings some, the first of them is; and however
long the stream runs, waits included, the ids it hands over are the cursors
of the entries after `rc` in order, starting with the one right after `rc`.
(2) When the state file is missing or empty, `InitJournal` only opens the journal, no
seek and no skip, and the same holds from the first entry of the journal. -/
theorem C4_resume_after_checkpoint (lowerRune : Char → Char) (host pfx state : String)
    (fs : FileSys) (records : List Entry) (arrivals : List (List Entry))
    (closest : List (String × Nat)) :
    (∀ (before : List Entry) (rc : Entry) (after : List Entry),
      records = before ++ rc :: after →
      (fs state).content = some rc.cursor →
      rc.cursor ≠ "" →
      (∀ e ∈ before, e.cursor ≠ rc.cursor) →
      ∃ s : Service,
        InitJournal (NewService host pfx state) fs (some (records, arrivals, closest))
          = .ok s ∧
        s.Journal.calls = [.open, .seekCursor rc.cursor, .nextSkip 1] ∧
        s.Journal.current = some rc ∧
        (∀ (nxt : Entry) (rest : List Entry), after = nxt :: rest →
          (sd_journal_next s.Journal).1 = 1 ∧
          (sd_journal_next s.Journal).2.current = some nxt ∧
          ∀ call, ProcessEntry lowerRune s.Config nxt = .ok call →
            ∃ s', ProcessStream lowerRune 1 s = .ok s' ∧ s'.Indexer = [call]) ∧
        (∀ (nxt : Entry) (more : List Entry) (later : List (List Entry)),
          after = [] → arrivals = (nxt :: more) :: later →
          ∀ call, ProcessEntry lowerRune s.Config nxt = .ok call →
            ∃ s', ProcessStream lowerRune 2 s = .ok s' ∧ s'.Indexer = [call]) ∧
        (∀ (fuel : Nat) (s' : Service), ProcessStream lowerRune fuel s = .ok s' →
          ∃ k, s'.Indexer.map (fun c => c.id)
            = ((after ++ arrivals.flatten).take k).map (fun e => e.cursor))) ∧
    ((fs state).content = none ∨ (fs state).content = some "" →
      ∃ s : Service,
        InitJournal (NewService host pfx state) fs (some (records, arrivals, closest))
          = .ok s ∧
        s.Journal.calls = [.open] ∧
        s.Journal.current = none ∧
        (∀ (first : Entry) (rest : List Entry), records = first :: rest →
          (sd_journal_next s.Journal).1 = 1 ∧
          (sd_journal_next s.Journal).2.current = some first ∧
          ∀ call, ProcessEntry lowerRune s.Config first = .ok call →
            ∃ s', ProcessStream lowerRune 1 s = .ok s' ∧ s'.Indexer = [call]) ∧
        (∀ (nxt : Entry) (more : List Entry) (later : List (List Entry)),
          records = [] → arrivals = (nxt :: more) :: later →
          ∀ call, ProcessEntry lowerRune s.Config nxt = .ok call →
            ∃ s', ProcessStream lowerRune 2 s = .ok s' ∧ s'.Indexer = [call]) ∧
        (∀ (fuel : Nat) (s' : Service), ProcessStream lowerRune fuel s = .ok s' →
          ∃ k, s'.Indexer.map (fun c => c.id)
            = ((records ++ arrivals.flatten).take k).map (fun e => e.cursor))) := by
  constructor
  · intro before rc after hrec hC hne hfirst
    subst hrec
    refine ⟨_, InitJournal_checkpoint host pfx state fs before after rc arrivals closest
      hC hne hfirst, rfl, ?_, ?_, ?_, ?_⟩
    · have := get?_after before after rc
      simpa [Journal.current] using this
    · intro nxt rest hafter
      subst hafter
      have h := next_yields
        { Config := { Host := host, Prefix := pfx, State := state }
          Journal := ⟨before ++ rc :: nxt :: rest, before.length + 1, arrivals,
            [.open, .seekCursor rc.cursor, .nextSkip 1], closest⟩
          Cursor := rc.cursor
          Indexer := [] } lowerRune (before ++ [rc]) rest nxt (by simp) (by simp)
      simpa using h
    · intro nxt more later hafter harr
      subst hafter harr
      have h := wait_then_yields
        { Config := { Host := host, Prefix := pfx, State := state }
          Journal := ⟨before ++ [rc], before.length + 1, (nxt :: more) :: later,
            [.open, .seekCursor rc.cursor, .nextSkip 1], closest⟩
          Cursor := rc.cursor
          Indexer := [] } lowerRune nxt more later (by simp) rfl
      simpa using h
    · intro fuel s' hs
      obtain ⟨k, hk⟩ := ProcessStream_ids lowerRune fuel _ s' (by simp) hs
      refine ⟨k, ?_⟩
      have hdrop : (before ++ rc :: after ++ arrivals.flatten).drop (before.length + 1)
          = after ++ arrivals.flatten := by
        rw [show before ++ rc :: after ++ arrivals.flatten
            = (before ++ [rc]) ++ (after ++ arrivals.flatten) by simp]
        exact List.drop_left' (by simp)
      simpa [Journal.allRecords, hdrop] using hk
  · intro hC
    refine ⟨_, InitJournal_no_checkpoint host pfx state fs records arrivals closest hC,
      rfl, rfl, ?_, ?_, ?_⟩
    · intro first rest hrec
      subst hrec
      have h := next_yields
        { Config := { Host := host, Prefix := pfx, State := state }
          Journal := ⟨first :: rest, 0, arrivals, [.open], closest⟩
          Cursor := ""
          Indexer := [] } lowerRune [] rest first rfl rfl
      simpa using h
    · intro nxt more later hrec harr
      subst hrec harr
      have h := wait_then_yields
        { Config := { Host := host, Prefix := pfx, State := state }
          Journal := ⟨[], 0, (nxt :: more) :: later, [.open], closest⟩
          Cursor := ""
          Indexer := [] } lowerRune nxt more later rfl rfl
      simpa using h
    · intro fuel s' hs
      obtain ⟨k, hk⟩ := ProcessStream_ids lowerRune fuel _ s' (by simp) hs
      exact ⟨k, by simpa [Journal.allRecords] using hk⟩

theorem C4_resume_after_checkpoint_witness :
    (∃ s : Service,
      InitJournal (NewService "http://localhost:9200" "journald" ".elastic_journal_cursor")
        resumeFiles (some (demoEntries ++ [stampedEntry], [], [])) = .ok s ∧
      s.Journal.calls = [.open, .seekCursor "c1", .nextSkip 1] ∧
      (sd_journal_next s.Journal).2.current = demoEntries.get? 1) ∧
    (∃ s : Service,
      InitJournal (NewService "http://localhost:9200" "journald" ".elastic_journal_cursor")
        noStateFiles (some (demoEntries ++ [stampedEntry], [], [])) = .ok s ∧
      s.Journal.calls = [.open] ∧
      (sd_journal_next s.Journal).2.current = demoEntries.get? 0) := by
  have h := C4_resume_after_checkpoint asciiLower "http://localhost:9200" "journald"
    ".elastic_journal_cursor"
  constructor
  · obtain ⟨s, h1, h2, _, h4, _, _⟩ := (h resumeFiles (demoEntries ++ [stampedEntry]) [] []).1 []
      { realtime := 1709632800000000, cursor := "c1", data := ["_HOST=a", "host=b"] }
      [{ realtime := 1709632801500000, cursor := "c2", data := ["MESSAGE=x=y"] }, stampedEntry]
      (by decide) (by decide) (by decide) (by decide)
    exact ⟨s, h1, h2, (h4 _ _ rfl).2.1⟩
  · obtain ⟨s, h1, h2, _, h4, _, _⟩ :=
      (h noStateFiles (demoEntries ++ [stampedEntry]) [] []).2 (Or.inl (by decide))
    exact ⟨s, h1, h2, (h4 _ _ rfl).2.1⟩

end ElasticJournald
